import Mathlib

/-!
Verification of the gocsp OCSP message library.

The data model, status-normalization logic and nonce/status accessors are
translated from the source (`ocsp.go` and the request/response codec file).
The wire codec underneath them is the Go `encoding/asn1` library, which is
not part of this repository; following the specification, the DER encoding
and decoding layer is modelled from the spec (tagging table of section 6,
error model of section 7), with byte strings as lists of naturals.
-/

namespace Gocsp

/-- Byte strings are lists of naturals, one entry per octet. -/
abbrev Bytes := List Nat

/-! ## Base-256 representation (used by DER long-form lengths) -/

def natToBytesAux : Nat → Nat → Bytes
  | _, 0 => []
  | 0, _ + 1 => []
  | fuel + 1, n + 1 => natToBytesAux fuel ((n + 1) / 256) ++ [(n + 1) % 256]

/-- Modelled from the spec: big-endian minimal base-256 representation of a
natural number, used for DER long-form length octets. `0` maps to `[]`.
Structured with a fuel argument so that it evaluates by reduction. -/
def natToBytes (n : Nat) : Bytes := natToBytesAux n n

theorem natToBytesAux_fuel :
    ∀ f1 f2 n, n ≤ f1 → n ≤ f2 → natToBytesAux f1 n = natToBytesAux f2 n := by
  intro f1
  induction f1 using Nat.strong_induction_on with
  | _ f1 ih =>
    intro f2 n h1 h2
    match n with
    | 0 => cases f1 <;> cases f2 <;> rfl
    | n + 1 =>
      obtain ⟨fa, rfl⟩ : ∃ fa, f1 = fa + 1 := ⟨f1 - 1, by omega⟩
      obtain ⟨fb, rfl⟩ : ∃ fb, f2 = fb + 1 := ⟨f2 - 1, by omega⟩
      simp only [natToBytesAux]
      have hdiv : (n + 1) / 256 < n + 1 := Nat.div_lt_self (Nat.succ_pos n) (by decide)
      rw [ih fa (by omega) fb ((n + 1) / 256) (by omega) (by omega)]

theorem natToBytes_eq (n : Nat) :
    natToBytes n = if n = 0 then [] else natToBytes (n / 256) ++ [n % 256] := by
  match n with
  | 0 => rfl
  | n + 1 =>
    rw [if_neg (Nat.succ_ne_zero n)]
    show natToBytesAux (n + 1) (n + 1)
      = natToBytesAux ((n + 1) / 256) ((n + 1) / 256) ++ [(n + 1) % 256]
    simp only [natToBytesAux]
    rw [natToBytesAux_fuel n ((n + 1) / 256) ((n + 1) / 256)
      (by
        have := Nat.div_lt_self (Nat.succ_pos n) (show 1 < 256 by decide)
        omega)
      (Nat.le_refl _)]

theorem natToBytes_zero : natToBytes 0 = [] := rfl

/-- Modelled from the spec: big-endian base-256 value of a byte string. -/
def bytesToNat (bs : Bytes) : Nat := bs.foldl (fun a b => a * 256 + b) 0

theorem bytesToNat_append_single (xs : Bytes) (b : Nat) :
    bytesToNat (xs ++ [b]) = bytesToNat xs * 256 + b := by
  simp [bytesToNat, List.foldl_append]

theorem bytesToNat_natToBytes (n : Nat) : bytesToNat (natToBytes n) = n := by
  induction n using Nat.strong_induction_on with
  | _ n ih =>
    rw [natToBytes_eq]
    by_cases h : n = 0
    · simp [h, bytesToNat]
    · rw [if_neg h, bytesToNat_append_single,
        ih (n / 256) (Nat.div_lt_self (Nat.pos_of_ne_zero h) (by decide))]
      omega

theorem natToBytes_ne_nil {n : Nat} (h : n ≠ 0) : natToBytes n ≠ [] := by
  rw [natToBytes_eq, if_neg h]
  simp

theorem natToBytes_head_pos {n : Nat} (h : n ≠ 0) :
    ∀ b, (natToBytes n).head? = some b → 0 < b := by
  induction n using Nat.strong_induction_on with
  | _ n ih =>
    intro b hb
    rw [natToBytes_eq, if_neg h] at hb
    by_cases h2 : n / 256 = 0
    · have hn : n < 256 := by omega
      rw [h2, natToBytes_zero] at hb
      simp only [List.nil_append, List.head?_cons, Option.some.injEq] at hb
      have : n % 256 = n := Nat.mod_eq_of_lt hn
      omega
    · have hne := natToBytes_ne_nil h2
      rw [List.head?_append_of_ne_nil _ hne] at hb
      exact ih (n / 256) (Nat.div_lt_self (Nat.pos_of_ne_zero h) (by decide)) h2 b hb

theorem natToBytes_lt_256 (n : Nat) : ∀ b ∈ natToBytes n, b < 256 := by
  induction n using Nat.strong_induction_on with
  | _ n ih =>
    intro b hb
    rw [natToBytes_eq] at hb
    by_cases h : n = 0
    · simp [h] at hb
    · rw [if_neg h] at hb
      simp only [List.mem_append, List.mem_singleton] at hb
      rcases hb with hb | hb
      · exact ih (n / 256) (Nat.div_lt_self (Nat.pos_of_ne_zero h) (by decide)) b hb
      · omega

/-! ## DER length octets -/

/-- Modelled from the spec: DER definite-length octets. Short form for
lengths below 128, long form (count byte then big-endian value) otherwise. -/
def encodeLen (n : Nat) : Bytes :=
  if n < 128 then [n]
  else (128 + (natToBytes n).length) :: natToBytes n

/-- Modelled from the spec: parse DER definite-length octets, returning the
length and the remaining bytes.  Indefinite lengths and non-minimal long
forms are rejected, as in DER. -/
def parseLen : Bytes → Option (Nat × Bytes)
  | [] => none
  | b :: rest =>
    if b < 128 then some (b, rest)
    else if b - 128 = 0 then none
    else if rest.length < b - 128 then none
    else if (rest.take (b - 128)).head? = some 0 then none
    else if bytesToNat (rest.take (b - 128)) < 128 then none
    else some (bytesToNat (rest.take (b - 128)), rest.drop (b - 128))

theorem parseLen_encodeLen (n : Nat) (s : Bytes) :
    parseLen (encodeLen n ++ s) = some (n, s) := by
  unfold encodeLen
  by_cases h : n < 128
  · rw [if_pos h]
    show parseLen (n :: s) = some (n, s)
    simp only [parseLen]
    rw [if_pos h]
  · rw [if_neg h, List.cons_append]
    have hn0 : n ≠ 0 := by omega
    have hne := natToBytes_ne_nil hn0
    have hlenpos : 0 < (natToBytes n).length := List.length_pos.mpr hne
    simp only [parseLen]
    rw [if_neg (by omega : ¬ (128 + (natToBytes n).length < 128))]
    have hk : 128 + (natToBytes n).length - 128 = (natToBytes n).length := by omega
    rw [hk]
    rw [if_neg (by omega : ¬ ((natToBytes n).length = 0))]
    rw [if_neg (by simp [List.length_append] : ¬ ((natToBytes n ++ s).length < (natToBytes n).length))]
    rw [List.take_left, List.drop_left]
    have hhead : ¬ ((natToBytes n).head? = some 0) := by
      intro hcon
      exact absurd (natToBytes_head_pos hn0 0 hcon) (by omega)
    rw [if_neg hhead, bytesToNat_natToBytes, if_neg h]

theorem parseLen_append {bs : Bytes} {n : Nat} {r : Bytes} (s : Bytes)
    (h : parseLen bs = some (n, r)) : parseLen (bs ++ s) = some (n, r ++ s) := by
  match bs with
  | [] => simp [parseLen] at h
  | b :: rest =>
    rw [List.cons_append]
    simp only [parseLen] at h ⊢
    by_cases hb : b < 128
    · rw [if_pos hb] at h ⊢
      have h2 : b = n ∧ rest = r := by simpa using h
      rw [h2.1, h2.2]
    · rw [if_neg hb] at h ⊢
      by_cases hk : b - 128 = 0
      · rw [if_pos hk] at h; exact absurd h (by simp)
      · rw [if_neg hk] at h ⊢
        by_cases hl : rest.length < b - 128
        · rw [if_pos hl] at h; exact absurd h (by simp)
        · have hl2 : ¬ ((rest ++ s).length < b - 128) := by
            simp only [List.length_append]; omega
          rw [if_neg hl] at h
          rw [if_neg hl2]
          have hle : b - 128 ≤ rest.length := by omega
          rw [List.take_append_of_le_length hle, List.drop_append_of_le_length hle]
          by_cases hh : (rest.take (b - 128)).head? = some 0
          · rw [if_pos hh] at h; exact absurd h (by simp)
          · rw [if_neg hh] at h ⊢
            by_cases hm : bytesToNat (rest.take (b - 128)) < 128
            · rw [if_pos hm] at h; exact absurd h (by simp)
            · rw [if_neg hm] at h ⊢
              have h2 : bytesToNat (rest.take (b - 128)) = n ∧ rest.drop (b - 128) = r := by
                simpa using h
              rw [h2.1, h2.2]

theorem parseLen_length {bs : Bytes} {n : Nat} {r : Bytes}
    (h : parseLen bs = some (n, r)) : r.length < bs.length := by
  match bs with
  | [] => simp [parseLen] at h
  | b :: rest =>
    simp only [parseLen] at h
    by_cases hb : b < 128
    · rw [if_pos hb] at h
      have h2 : b = n ∧ rest = r := by simpa using h
      rw [← h2.2]
      simp [List.length_cons]
    · rw [if_neg hb] at h
      by_cases hk : b - 128 = 0
      · rw [if_pos hk] at h; exact absurd h (by simp)
      · rw [if_neg hk] at h
        by_cases hl : rest.length < b - 128
        · rw [if_pos hl] at h; exact absurd h (by simp)
        · rw [if_neg hl] at h
          by_cases hh : (rest.take (b - 128)).head? = some 0
          · rw [if_pos hh] at h; exact absurd h (by simp)
          · rw [if_neg hh] at h
            by_cases hm : bytesToNat (rest.take (b - 128)) < 128
            · rw [if_pos hm] at h; exact absurd h (by simp)
            · rw [if_neg hm] at h
              have h2 : bytesToNat (rest.take (b - 128)) = n ∧ rest.drop (b - 128) = r := by
                simpa using h
              rw [← h2.2]
              simp only [List.length_drop, List.length_cons]
              omega

/-! ## TLV (tag, length, value) layer -/

/-- Modelled from the spec: a DER element is its tag octet, then definite
length octets, then the content octets. All tags used by the OCSP schema fit
in a single octet (tag numbers below 31). -/
def encodeTLV (t : Nat) (c : Bytes) : Bytes := t :: (encodeLen c.length ++ c)

/-- Modelled from the spec: split one DER element off a byte string,
returning the tag octet, the content octets and the remaining bytes. -/
def parseTLV : Bytes → Option (Nat × Bytes × Bytes)
  | [] => none
  | t :: rest =>
    match parseLen rest with
    | none => none
    | some (n, r) => if n ≤ r.length then some (t, r.take n, r.drop n) else none

theorem parseTLV_encodeTLV (t : Nat) (c : Bytes) (s : Bytes) :
    parseTLV (encodeTLV t c ++ s) = some (t, c, s) := by
  unfold encodeTLV
  rw [List.cons_append, List.append_assoc]
  simp only [parseTLV]
  rw [parseLen_encodeLen c.length (c ++ s)]
  simp only
  rw [if_pos (by simp [List.length_append])]
  rw [List.take_left, List.drop_left]

theorem parseTLV_append {bs : Bytes} {t : Nat} {c r : Bytes} (s : Bytes)
    (h : parseTLV bs = some (t, c, r)) : parseTLV (bs ++ s) = some (t, c, r ++ s) := by
  match bs with
  | [] => simp [parseTLV] at h
  | b :: rest =>
    rw [List.cons_append]
    simp only [parseTLV] at h ⊢
    match hp : parseLen rest with
    | none => rw [hp] at h; simp at h
    | some (n, r2) =>
      rw [hp] at h
      rw [parseLen_append s hp]
      simp only at h ⊢
      by_cases hn : n ≤ r2.length
      · rw [if_pos hn] at h
        rw [if_pos (by simp [List.length_append]; omega)]
        have h2 : b = t ∧ r2.take n = c ∧ r2.drop n = r := by simpa using h
        rw [List.take_append_of_le_length hn, List.drop_append_of_le_length hn,
          h2.1, h2.2.1, h2.2.2]
      · rw [if_neg hn] at h; exact absurd h (by simp)

theorem parseTLV_rest_length {bs : Bytes} {t : Nat} {c r : Bytes}
    (h : parseTLV bs = some (t, c, r)) : r.length < bs.length := by
  match bs with
  | [] => simp [parseTLV] at h
  | b :: rest =>
    simp only [parseTLV] at h
    match hp : parseLen rest with
    | none => rw [hp] at h; simp at h
    | some (n, r2) =>
      rw [hp] at h
      simp only at h
      by_cases hn : n ≤ r2.length
      · rw [if_pos hn] at h
        have h2 : b = t ∧ r2.take n = c ∧ r2.drop n = r := by simpa using h
        have hr2 := parseLen_length hp
        rw [← h2.2.2]
        simp only [List.length_drop, List.length_cons]
        omega
      · rw [if_neg hn] at h; exact absurd h (by simp)

/-- Modelled from the spec: parse one element that must carry the given tag
(a required field), returning its content and the remaining bytes. -/
def takeReq (t : Nat) (bs : Bytes) : Option (Bytes × Bytes) :=
  match parseTLV bs with
  | none => none
  | some (t2, c, r) => if t2 = t then some (c, r) else none

/-- Modelled from the spec: parse an optional element. When the next tag
octet matches, the element is consumed and its content returned; otherwise
(including at end of input) the field is reported absent and nothing is
consumed, as the Go decoder does for mismatched optional fields. -/
def takeTagged (t : Nat) (bs : Bytes) : Option (Option Bytes × Bytes) :=
  match bs with
  | [] => some (none, [])
  | b :: rest =>
    if b = t then
      match parseTLV (b :: rest) with
      | none => none
      | some (_, c, r) => some (some c, r)
    else some (none, b :: rest)

/-- Modelled from the spec: parse one element of any tag and return the raw
octets consumed (tag and length octets included), as the Go decoder does for
an `asn1.RawValue` field. -/
def takeRawTLV (bs : Bytes) : Option (Bytes × Bytes) :=
  match parseTLV bs with
  | none => none
  | some (_, _, r) => some (bs.take (bs.length - r.length), r)

/-- Modelled from the spec: the encoding of an optional element — nothing
when the field is absent, a tagged element otherwise. -/
def encOptTLV (t : Nat) (o : Option Bytes) : Bytes :=
  match o with
  | none => []
  | some c => encodeTLV t c

/-- A byte string that is exactly one well-formed DER element. Raw values
(responder identifiers, carried certificates, algorithm parameters, requestor
names) are modelled as their full DER octets and required to satisfy this. -/
def isFullTLV (bs : Bytes) : Bool :=
  match parseTLV bs with
  | some (_, _, rest) => rest.isEmpty
  | none => false

theorem takeReq_encodeTLV (t : Nat) (c : Bytes) (s : Bytes) :
    takeReq t (encodeTLV t c ++ s) = some (c, s) := by
  unfold takeReq
  rw [parseTLV_encodeTLV]
  simp

theorem encodeTLV_ne_nil (t : Nat) (c : Bytes) : encodeTLV t c ≠ [] := by
  simp [encodeTLV]

theorem encodeTLV_head (t : Nat) (c : Bytes) (s : Bytes) :
    (encodeTLV t c ++ s).head? = some t := by
  simp [encodeTLV]

theorem takeTagged_encOptTLV (t : Nat) (o : Option Bytes) (s : Bytes)
    (hs : s.head? ≠ some t) : takeTagged t (encOptTLV t o ++ s) = some (o, s) := by
  match o with
  | none =>
    simp only [encOptTLV, List.nil_append]
    match s with
    | [] => simp [takeTagged]
    | b :: rest =>
      simp only [List.head?_cons] at hs
      simp only [takeTagged]
      rw [if_neg (fun hh => hs (by rw [hh]))]
  | some c =>
    simp only [encOptTLV]
    have hh := encodeTLV_head t c s
    match hcons : encodeTLV t c ++ s with
    | [] => exact absurd hcons (by simp [encodeTLV])
    | b :: rest =>
      rw [hcons] at hh
      simp only [List.head?_cons, Option.some.injEq] at hh
      simp only [takeTagged]
      rw [if_pos hh, ← hcons, parseTLV_encodeTLV]

theorem takeRawTLV_full (raw : Bytes) (s : Bytes) (h : isFullTLV raw = true) :
    takeRawTLV (raw ++ s) = some (raw, s) := by
  unfold isFullTLV at h
  match hp : parseTLV raw with
  | none => rw [hp] at h; simp at h
  | some (t, c, rest) =>
    rw [hp] at h
    simp only [List.isEmpty_iff] at h
    rw [h] at hp
    unfold takeRawTLV
    rw [parseTLV_append s hp]
    simp only [List.nil_append, List.length_append]
    rw [show raw.length + s.length - s.length = raw.length by omega, List.take_left]

/-! ## Sequences of elements (SEQUENCE OF) -/

/-- Modelled from the spec: parse a run of elements until the input is
exhausted, with an explicit fuel bound for termination. Used for the content
octets of a SEQUENCE OF, which the decoder must consume completely. -/
def parseMany {α : Type} (p : Bytes → Option (α × Bytes)) : Nat → Bytes → Option (List α)
  | _, [] => some []
  | 0, _ :: _ => none
  | fuel + 1, b :: bs =>
    match p (b :: bs) with
    | none => none
    | some (x, rest) =>
      match parseMany p fuel rest with
      | none => none
      | some l => some (x :: l)

theorem parseMany_encodes {α : Type} (p : Bytes → Option (α × Bytes)) (enc : α → Bytes)
    (l : List α) (hp : ∀ x ∈ l, ∀ s, p (enc x ++ s) = some (x, s))
    (hne : ∀ x ∈ l, enc x ≠ []) :
    ∀ fuel, (l.map enc).flatten.length ≤ fuel →
      parseMany p fuel (l.map enc).flatten = some l := by
  induction l with
  | nil => intro fuel _; simp [parseMany]
  | cons x xs ih =>
    intro fuel hf
    simp only [List.map_cons, List.flatten_cons] at hf ⊢
    have hx := hp x (by simp) (xs.map enc).flatten
    match he : enc x with
    | [] => exact absurd he (hne x (by simp))
    | e :: es =>
      rw [he] at hx hf
      rw [List.cons_append]
      have hlen : es.length + (xs.map enc).flatten.length + 1 ≤ fuel := by
        simp only [List.length_cons, List.length_append] at hf
        omega
      match fuel with
      | 0 => omega
      | f + 1 =>
        have hr := ih (fun y hy s => hp y (by simp [hy]) s) (fun y hy => hne y (by simp [hy])) f
          (by omega)
        simp only [parseMany]
        rw [← List.cons_append]
        simp only [hx, hr]

/-! ## Base-128 arcs and object identifiers -/

def base128AuxF : Nat → Nat → Bytes
  | _, 0 => []
  | 0, _ + 1 => []
  | fuel + 1, m + 1 => base128AuxF fuel ((m + 1) / 128) ++ [128 + (m + 1) % 128]

/-- Modelled from the spec: high-order base-128 groups of an arc, each with
the continuation bit set. Structured with a fuel argument so that it
evaluates by reduction. -/
def base128Aux (m : Nat) : Bytes := base128AuxF m m

theorem base128AuxF_fuel :
    ∀ f1 f2 m, m ≤ f1 → m ≤ f2 → base128AuxF f1 m = base128AuxF f2 m := by
  intro f1
  induction f1 using Nat.strong_induction_on with
  | _ f1 ih =>
    intro f2 m h1 h2
    match m with
    | 0 => cases f1 <;> cases f2 <;> rfl
    | m + 1 =>
      obtain ⟨fa, rfl⟩ : ∃ fa, f1 = fa + 1 := ⟨f1 - 1, by omega⟩
      obtain ⟨fb, rfl⟩ : ∃ fb, f2 = fb + 1 := ⟨f2 - 1, by omega⟩
      simp only [base128AuxF]
      have hdiv : (m + 1) / 128 < m + 1 := Nat.div_lt_self (Nat.succ_pos m) (by decide)
      rw [ih fa (by omega) fb ((m + 1) / 128) (by omega) (by omega)]

theorem base128Aux_eq (m : Nat) :
    base128Aux m = if m = 0 then [] else base128Aux (m / 128) ++ [128 + m % 128] := by
  match m with
  | 0 => rfl
  | m + 1 =>
    rw [if_neg (Nat.succ_ne_zero m)]
    show base128AuxF (m + 1) (m + 1)
      = base128AuxF ((m + 1) / 128) ((m + 1) / 128) ++ [128 + (m + 1) % 128]
    simp only [base128AuxF]
    rw [base128AuxF_fuel m ((m + 1) / 128) ((m + 1) / 128)
      (by
        have := Nat.div_lt_self (Nat.succ_pos m) (show 1 < 128 by decide)
        omega)
      (Nat.le_refl _)]

/-- Modelled from the spec: base-128 encoding of one object-identifier arc,
continuation bit on every octet but the last. -/
def base128 (n : Nat) : Bytes := base128Aux (n / 128) ++ [n % 128]

def parseBase128Aux : Nat → Bytes → Option (Nat × Bytes)
  | _, [] => none
  | acc, b :: rest =>
    if b < 128 then some (acc * 128 + b, rest)
    else parseBase128Aux (acc * 128 + (b - 128)) rest

/-- Modelled from the spec: parse one base-128 arc; a leading pad octet
(bare continuation bit) is rejected as non-minimal. -/
def parseBase128 (bs : Bytes) : Option (Nat × Bytes) :=
  match bs with
  | [] => none
  | b :: rest => if b = 128 then none else parseBase128Aux 0 (b :: rest)

theorem base128_ne_nil (n : Nat) : base128 n ≠ [] := by
  simp [base128]

theorem base128Aux_zero : base128Aux 0 = [] := rfl

theorem parseBase128Aux_shift (m : Nat) :
    ∀ acc rest, parseBase128Aux acc (base128Aux m ++ rest) =
      parseBase128Aux (acc * 128 ^ (base128Aux m).length + m) rest := by
  induction m using Nat.strong_induction_on with
  | _ m ih =>
    intro acc rest
    by_cases h : m = 0
    · rw [h, base128Aux_zero]
      simp
    · conv_lhs => rw [base128Aux_eq, if_neg h]
      conv_rhs => rw [base128Aux_eq, if_neg h]
      rw [List.append_assoc, ih (m / 128) (Nat.div_lt_self (Nat.pos_of_ne_zero h) (by decide))]
      rw [List.singleton_append]
      have hstep : parseBase128Aux (acc * 128 ^ (base128Aux (m / 128)).length + m / 128)
          ((128 + m % 128) :: rest) =
          parseBase128Aux ((acc * 128 ^ (base128Aux (m / 128)).length + m / 128) * 128
            + (128 + m % 128 - 128)) rest := by
        simp only [parseBase128Aux]
        rw [if_neg (show ¬ (128 + m % 128 < 128) by omega)]
      rw [hstep]
      have harg : (acc * 128 ^ (base128Aux (m / 128)).length + m / 128) * 128
          + (128 + m % 128 - 128)
          = acc * 128 ^ (base128Aux (m / 128) ++ [128 + m % 128]).length + m := by
        have hmod : 128 + m % 128 - 128 = m % 128 := by omega
        rw [hmod, List.length_append, List.length_singleton, pow_succ]
        have hdm := Nat.div_add_mod m 128
        have hring : (acc * 128 ^ (base128Aux (m / 128)).length + m / 128) * 128
            = acc * (128 ^ (base128Aux (m / 128)).length * 128) + m / 128 * 128 := by
          rw [Nat.add_mul, Nat.mul_assoc]
        omega
      rw [harg]

theorem base128Aux_head_gt {m : Nat} (h : m ≠ 0) :
    ∀ b, (base128Aux m).head? = some b → 128 < b := by
  induction m using Nat.strong_induction_on with
  | _ m ih =>
    intro b hb
    rw [base128Aux_eq, if_neg h] at hb
    by_cases h2 : m / 128 = 0
    · rw [h2, base128Aux_zero] at hb
      simp only [List.nil_append, List.head?_cons, Option.some.injEq] at hb
      have hlt : m < 128 := by
        by_contra hge
        have : 0 < m / 128 := Nat.div_pos (by omega) (by decide)
        omega
      have hm : m % 128 = m := Nat.mod_eq_of_lt hlt
      omega
    · have hne : base128Aux (m / 128) ≠ [] := by
        rw [base128Aux_eq]; simp [h2]
      rw [List.head?_append_of_ne_nil _ hne] at hb
      exact ih (m / 128) (Nat.div_lt_self (Nat.pos_of_ne_zero h) (by decide)) h2 b hb

theorem parseBase128_base128 (n : Nat) (s : Bytes) :
    parseBase128 (base128 n ++ s) = some (n, s) := by
  unfold base128
  rw [List.append_assoc, List.singleton_append]
  by_cases h : n < 128
  · have h0 : n / 128 = 0 := Nat.div_eq_of_lt h
    rw [h0, base128Aux_zero]
    simp only [List.nil_append]
    have hmod : n % 128 = n := Nat.mod_eq_of_lt h
    rw [hmod]
    simp only [parseBase128]
    rw [if_neg (show ¬ (n = 128) by omega)]
    simp only [parseBase128Aux]
    rw [if_pos h]
    simp
  · have h0 : n / 128 ≠ 0 := by
      intro hc
      have : 0 < n / 128 := Nat.div_pos (by omega) (by decide)
      omega
    have hne : base128Aux (n / 128) ≠ [] := by
      rw [base128Aux_eq]; simp [h0]
    match hcons : base128Aux (n / 128) with
    | [] => exact absurd hcons hne
    | b :: tl =>
      have hhd : 128 < b := by
        apply base128Aux_head_gt h0
        rw [hcons]; rfl
      rw [List.cons_append]
      simp only [parseBase128]
      rw [if_neg (show ¬ (b = 128) by omega)]
      rw [← List.cons_append, ← hcons, parseBase128Aux_shift]
      simp only [parseBase128Aux]
      rw [if_pos (by omega : n % 128 < 128)]
      have hdm := Nat.div_add_mod n 128
      simp only [Nat.zero_mul, Nat.zero_add, Option.some.injEq, Prod.mk.injEq]
      exact ⟨by omega, trivial⟩

/-! ## Object identifiers -/

/-- Object identifiers, as in Go `asn1.ObjectIdentifier` (a list of arcs). -/
abbrev OID := List Nat

/-- Modelled from the spec: validity of an object identifier for encoding —
at least two arcs, first arc at most 2, and second arc below 40 unless the
first arc is 2. -/
def oidValid (oid : OID) : Bool :=
  match oid with
  | a :: b :: _ => decide (a ≤ 2) && (decide (a = 2) || decide (b < 40))
  | _ => false

/-- Modelled from the spec: DER content octets of an object identifier; the
first two arcs are combined into a single value. -/
def encodeOIDContent (oid : OID) : Bytes :=
  match oid with
  | a :: b :: rest => base128 (40 * a + b) ++ (rest.map base128).flatten
  | _ => []

/-- Modelled from the spec: parse the content octets of an object
identifier, splitting the combined first value into two arcs. -/
def parseOIDContent (c : Bytes) : Option OID :=
  match parseBase128 c with
  | none => none
  | some (v, rest) =>
    match parseMany parseBase128 rest.length rest with
    | none => none
    | some arcs =>
      if v < 80 then some (v / 40 :: v % 40 :: arcs) else some (2 :: (v - 80) :: arcs)

theorem parseOIDContent_encodeOIDContent (oid : OID) (h : oidValid oid = true) :
    parseOIDContent (encodeOIDContent oid) = some oid := by
  match oid with
  | [] => simp [oidValid] at h
  | [a] => simp [oidValid] at h
  | a :: b :: rest =>
    simp only [oidValid, Bool.and_eq_true, Bool.or_eq_true, decide_eq_true_eq] at h
    have hmany : parseMany parseBase128 (rest.map base128).flatten.length
        (rest.map base128).flatten = some rest :=
      parseMany_encodes parseBase128 base128 rest
        (fun x _ s => parseBase128_base128 x s) (fun x _ => base128_ne_nil x)
        (rest.map base128).flatten.length (Nat.le_refl _)
    simp only [encodeOIDContent, parseOIDContent, parseBase128_base128, hmany]
    rcases h.2 with ha2 | hb40
    · subst ha2
      have hb : 40 * 2 + b - 80 = b := by omega
      rw [if_neg (show ¬ (40 * 2 + b < 80) by omega), hb]
    · have ha : a ≤ 2 := h.1
      by_cases ha2 : a = 2
      · subst ha2
        have hb : 40 * 2 + b - 80 = b := by omega
        rw [if_neg (show ¬ (40 * 2 + b < 80) by omega), hb]
      · have hdiv : (40 * a + b) / 40 = a := by omega
        have hmod : (40 * a + b) % 40 = b := by omega
        rw [if_pos (show 40 * a + b < 80 by omega), hdiv, hmod]

/-- DER object-identifier element (universal tag 6). -/
def encodeOID (oid : OID) : Bytes := encodeTLV 6 (encodeOIDContent oid)

/-! ## INTEGER content (two's complement, minimal) -/

/-- Modelled from the spec: DER INTEGER content octets — minimal big-endian
two's complement, as used for version numbers, enumerated values and
certificate serial numbers. -/
def encodeIntContent (n : Int) : Bytes :=
  if n = 0 then [0]
  else if 0 < n then
    if 128 ≤ (natToBytes n.toNat).headD 0 then 0 :: natToBytes n.toNat
    else natToBytes n.toNat
  else
    if ((natToBytes (-n - 1).toNat).map (fun b => 255 - b)).headD 0 < 128
    then 255 :: (natToBytes (-n - 1).toNat).map (fun b => 255 - b)
    else (natToBytes (-n - 1).toNat).map (fun b => 255 - b)

/-- Modelled from the spec: a DER INTEGER content violates minimality when a
leading zero octet precedes a low octet, or a leading 255 octet precedes a
high octet. -/
def intMinimalViolation (b : Nat) (rest : Bytes) : Bool :=
  decide (0 < rest.length) &&
    ((decide (b = 0) && decide (rest.headD 0 < 128)) ||
     (decide (b = 255) && decide (128 ≤ rest.headD 0)))

/-- Modelled from the spec: parse DER INTEGER content octets, rejecting
empty and non-minimal encodings. -/
def parseIntContent (c : Bytes) : Option Int :=
  match c with
  | [] => none
  | b :: rest =>
    if intMinimalViolation b rest then none
    else if 128 ≤ b then
      some (-((bytesToNat ((b :: rest).map (fun x => 255 - x)) : Int) + 1))
    else some ((bytesToNat (b :: rest) : Int))

theorem bytesToNat_cons_zero (bs : Bytes) : bytesToNat (0 :: bs) = bytesToNat bs := by
  simp [bytesToNat, List.foldl_cons]

theorem map_complement_involution (bs : Bytes) (h : ∀ b ∈ bs, b < 256) :
    (bs.map (fun x => 255 - x)).map (fun x => 255 - x) = bs := by
  rw [List.map_map]
  conv_rhs => rw [← List.map_id bs]
  apply List.map_congr_left
  intro b hb
  have := h b hb
  simp only [Function.comp_apply, id_eq]
  omega

theorem parseIntContent_cons_ok (b : Nat) (rest : Bytes)
    (hviol : intMinimalViolation b rest = false) :
    parseIntContent (b :: rest) =
      if 128 ≤ b then some (-((bytesToNat ((b :: rest).map (fun x => 255 - x)) : Int) + 1))
      else some ((bytesToNat (b :: rest) : Int)) := by
  simp only [parseIntContent, hviol, Bool.false_eq_true, if_false]

theorem parseIntContent_encodeIntContent (n : Int) :
    parseIntContent (encodeIntContent n) = some n := by
  unfold encodeIntContent
  by_cases h0 : n = 0
  · rw [if_pos h0]
    rw [parseIntContent_cons_ok 0 [] (by simp [intMinimalViolation])]
    rw [if_neg (by omega : ¬ (128 ≤ 0))]
    simp [bytesToNat, h0]
  · rw [if_neg h0]
    by_cases hpos : 0 < n
    · rw [if_pos hpos]
      have hm : n.toNat ≠ 0 := by omega
      match hbs : natToBytes n.toNat with
      | [] => exact absurd hbs (natToBytes_ne_nil hm)
      | hByte :: tl =>
        have hhead : 0 < hByte := natToBytes_head_pos hm hByte (by rw [hbs]; rfl)
        have hlt : hByte < 256 := natToBytes_lt_256 _ hByte (by rw [hbs]; simp)
        have hval : bytesToNat (hByte :: tl) = n.toNat := by rw [← hbs, bytesToNat_natToBytes]
        simp only [List.headD_cons]
        by_cases hbig : 128 ≤ hByte
        · rw [if_pos hbig]
          rw [parseIntContent_cons_ok 0 (hByte :: tl)
            (by simp [intMinimalViolation]; omega)]
          rw [if_neg (by omega : ¬ (128 ≤ 0))]
          rw [bytesToNat_cons_zero, hval]
          simp only [Option.some.injEq]
          omega
        · rw [if_neg hbig]
          rw [parseIntContent_cons_ok hByte tl
            (by simp [intMinimalViolation]; omega)]
          rw [if_neg hbig, hval]
          simp only [Option.some.injEq]
          omega
    · rw [if_neg hpos]
      have hneg : n < 0 := by omega
      by_cases hm0 : (-n - 1).toNat = 0
      · rw [hm0, natToBytes_zero]
        simp only [List.map_nil, List.headD_nil]
        rw [if_pos (by omega : (0:Nat) < 128)]
        rw [parseIntContent_cons_ok 255 [] (by simp [intMinimalViolation])]
        rw [if_pos (by omega : 128 ≤ 255)]
        simp only [List.map_cons, List.map_nil]
        have hb0 : bytesToNat [255 - 255] = 0 := by simp [bytesToNat]
        rw [hb0]
        simp only [Option.some.injEq]
        omega
      · match hbs : natToBytes (-n - 1).toNat with
        | [] => exact absurd hbs (natToBytes_ne_nil hm0)
        | hByte :: tl =>
          have hhead : 0 < hByte := natToBytes_head_pos hm0 hByte (by rw [hbs]; rfl)
          have hlt : hByte < 256 := natToBytes_lt_256 _ hByte (by rw [hbs]; simp)
          have htl : ∀ b ∈ tl, b < 256 := by
            intro b hb
            exact natToBytes_lt_256 _ b (by rw [hbs]; simp [hb])
          have hval : bytesToNat (hByte :: tl) = (-n - 1).toNat := by
            rw [← hbs, bytesToNat_natToBytes]
          have hinv : (tl.map (fun x => 255 - x)).map (fun x => 255 - x) = tl :=
            map_complement_involution tl htl
          simp only [List.map_cons, List.headD_cons]
          by_cases hsmall : 255 - hByte < 128
          · rw [if_pos hsmall]
            rw [parseIntContent_cons_ok 255 ((255 - hByte) :: tl.map (fun x => 255 - x))
              (by simp [intMinimalViolation]; omega)]
            rw [if_pos (by omega : 128 ≤ 255)]
            simp only [List.map_cons]
            have hbb : 255 - (255 - hByte) = hByte := by omega
            have h255 : 255 - 255 = 0 := by omega
            rw [h255, hbb, hinv, bytesToNat_cons_zero, hval]
            simp only [Option.some.injEq]
            omega
          · rw [if_neg hsmall]
            rw [parseIntContent_cons_ok (255 - hByte) (tl.map (fun x => 255 - x))
              (by
                simp [intMinimalViolation]
                intro hlen
                constructor
                · omega
                · intro hc
                  exact absurd hc (by omega))]
            rw [if_pos (by omega : 128 ≤ 255 - hByte)]
            simp only [List.map_cons]
            have hbb : 255 - (255 - hByte) = hByte := by omega
            rw [hbb, hinv, hval]
            simp only [Option.some.injEq]
            omega

/-! ## GeneralizedTime -/

/-- Modelled from the spec: fixed-width big-endian decimal digits (ASCII),
used for the 14-digit GeneralizedTime timestamp. Time instants are modelled
as the 14-digit number YYYYMMDDHHMMSS, with 0 as the zero instant. -/
def decDigits : Nat → Nat → Bytes
  | 0, _ => []
  | w + 1, n => (48 + n / 10 ^ w) :: decDigits w (n % 10 ^ w)

def parseDigits : Nat → Nat → Bytes → Option (Nat × Bytes)
  | 0, acc, bs => some (acc, bs)
  | _ + 1, _, [] => none
  | w + 1, acc, b :: rest =>
    if 48 ≤ b ∧ b ≤ 57 then parseDigits w (acc * 10 + (b - 48)) rest else none

theorem parseDigits_decDigits :
    ∀ w acc n s, n < 10 ^ w →
      parseDigits w acc (decDigits w n ++ s) = some (acc * 10 ^ w + n, s) := by
  intro w
  induction w with
  | zero =>
    intro acc n s hn
    have hn0 : n = 0 := by simpa using hn
    simp [decDigits, parseDigits, hn0]
  | succ w ih =>
    intro acc n s hn
    have hpow : 10 ^ (w + 1) = 10 ^ w * 10 := pow_succ 10 w
    have hd : n / 10 ^ w < 10 := by
      apply Nat.div_lt_of_lt_mul
      omega
    simp only [decDigits, List.cons_append, parseDigits, List.append_eq]
    have hdm := Nat.div_add_mod n (10 ^ w)
    have hmod : n % 10 ^ w < 10 ^ w := Nat.mod_lt _ (Nat.pos_pow_of_pos w (by decide))
    generalize hgen : n / 10 ^ w = d at hd hdm ⊢
    generalize hgen2 : n % 10 ^ w = r at hmod hdm ⊢
    rw [if_pos (by omega : 48 ≤ 48 + d ∧ 48 + d ≤ 57)]
    rw [ih (acc * 10 + (48 + d - 48)) r s hmod]
    have harith : (acc * 10 + (48 + d - 48)) * 10 ^ w + r = acc * 10 ^ (w + 1) + n := by
      have hsub : 48 + d - 48 = d := by omega
      rw [hsub, Nat.add_mul, pow_succ]
      have hmm : acc * 10 * 10 ^ w = acc * (10 ^ w * 10) := by ring
      have hcomm : d * 10 ^ w = 10 ^ w * d := Nat.mul_comm _ _
      omega
    rw [harith]

/-- Modelled from the spec: GeneralizedTime content octets — 14 ASCII
digits then the letter Z (octet 90). -/
def encodeTimeContent (t : Nat) : Bytes := decDigits 14 t ++ [90]

/-- Modelled from the spec: parse GeneralizedTime content octets. -/
def parseTimeContent (c : Bytes) : Option Nat :=
  match parseDigits 14 0 c with
  | none => none
  | some (t, rest) => if rest = [90] then some t else none

theorem parseTimeContent_encodeTimeContent (t : Nat) (h : t < 10 ^ 14) :
    parseTimeContent (encodeTimeContent t) = some t := by
  unfold encodeTimeContent parseTimeContent
  rw [parseDigits_decDigits 14 0 t [90] h]
  simp

/-- DER GeneralizedTime element (universal tag 24). -/
def encodeTime (t : Nat) : Bytes := encodeTLV 24 (encodeTimeContent t)

/-! ## BOOLEAN content -/

/-- Modelled from the spec: DER BOOLEAN content — 255 for true, 0 for
false. -/
def encodeBoolContent (b : Bool) : Bytes := if b then [255] else [0]

/-- Modelled from the spec: parse DER BOOLEAN content; only the canonical
octets are accepted. -/
def parseBoolContent (c : Bytes) : Option Bool :=
  match c with
  | [0] => some false
  | [255] => some true
  | _ => none

theorem parseBoolContent_encodeBoolContent (b : Bool) :
    parseBoolContent (encodeBoolContent b) = some b := by
  cases b <;> rfl

/-! ## BIT STRING content -/

/-- Bit strings, as in Go `asn1.BitString`: the padded octets and the bit
length. -/
structure BitString where
  Bytes : List Nat
  BitLength : Nat
deriving DecidableEq

/-- Modelled from the spec: DER BIT STRING content — the pad-bit count
octet, then the octets. -/
def encodeBitStringContent (b : BitString) : Bytes :=
  ((8 - b.BitLength % 8) % 8) :: b.Bytes

/-- Modelled from the spec: parse DER BIT STRING content, rejecting a pad
count above 7, a pad on an empty string, and nonzero padding bits. -/
def parseBitStringContent (c : Bytes) : Option BitString :=
  match c with
  | [] => none
  | p :: rest =>
    if p ≤ 7 ∧ (rest.length = 0 → p = 0) ∧ (rest.getLastD 0) % 2 ^ p = 0
    then some ⟨rest, 8 * rest.length - p⟩ else none

/-- Well-formedness of a bit string, as required for the encoding to parse
back: the octet count matches the bit length and the padding bits are
zero. -/
def wfBitString (b : BitString) : Bool :=
  decide (b.Bytes.length = (b.BitLength + 7) / 8) &&
    decide ((b.Bytes.getLastD 0) % 2 ^ ((8 - b.BitLength % 8) % 8) = 0)

theorem parseBitStringContent_encode (b : BitString) (h : wfBitString b = true) :
    parseBitStringContent (encodeBitStringContent b) = some b := by
  unfold wfBitString at h
  simp only [Bool.and_eq_true, decide_eq_true_eq] at h
  obtain ⟨bs, bl⟩ := b
  simp only at h
  simp only [encodeBitStringContent, parseBitStringContent]
  rw [if_pos (show ((8 - bl % 8) % 8 ≤ 7) ∧ (bs.length = 0 → (8 - bl % 8) % 8 = 0) ∧
      bs.getLastD 0 % 2 ^ ((8 - bl % 8) % 8) = 0 from ⟨by omega, by omega, h.2⟩)]
  have hbl : 8 * bs.length - (8 - bl % 8) % 8 = bl := by
    have := h.1
    omega
  rw [hbl]

/-! ## Data model

The record types translate the Go structs of the repository: `certID`,
`OcspRequest`/`tbsRequest`/`signature`/`request`, and
`OcspResponse`/`responseBytes`/`BasicResponse`/`responseData`/
`singleResponse`/`RevokedInfo`. Time instants (`time.Time`) are modelled as
the 14-digit GeneralizedTime number with 0 the zero instant; `big.Int` and
`int` become `Int`; raw values (`asn1.RawValue`, `pkix.RDNSequence`) are
modelled as their full DER octets, `[]` meaning absent. -/

structure AlgorithmIdentifier where
  Algorithm : OID
  Parameters : Bytes
deriving DecidableEq

structure Extension where
  Id : OID
  Critical : Bool
  Value : Bytes
deriving DecidableEq

structure certID where
  HashAlgorithm : AlgorithmIdentifier
  NameHash : Bytes
  IssuerKeyHash : Bytes
  SerialNumber : Int
deriving DecidableEq

structure request where
  ReqCert : certID
  SingleRequestExtensions : List Extension
deriving DecidableEq

structure signature where
  SignatureAlgorithm : AlgorithmIdentifier
  Signature : BitString
  Certs : List (List Bytes)
deriving DecidableEq

structure tbsRequest where
  Version : Int
  RequestorName : Bytes
  RequestList : List request
  ExtensionList : List Extension
deriving DecidableEq

structure OcspRequest where
  TBSRequest : tbsRequest
  Signature : signature
deriving DecidableEq

structure responseBytes where
  ResponseType : OID
  Response : Bytes
deriving DecidableEq

structure OcspResponse where
  ResponseStatus : Int
  ResponseBytes : responseBytes
deriving DecidableEq

structure RevokedInfo where
  RevocationTime : Nat
  RevocationReason : Int
deriving DecidableEq

structure singleResponse where
  CertID : certID
  Good : Bool
  Revoked : RevokedInfo
  Unknown : Bool
  ThisUpdate : Nat
  NextUpdate : Nat
  SingleExtensions : List Extension
deriving DecidableEq

structure responseData where
  Version : Int
  ResponderID : Bytes
  ProducedAt : Nat
  Responses : List singleResponse
  ResponseExtensions : List Extension
deriving DecidableEq

structure BasicResponse where
  TBSResponseData : responseData
  SignatureAlgorithm : AlgorithmIdentifier
  Signature : BitString
  Certs : List Bytes
deriving DecidableEq

/-- Zero values of the Go structs, used for the omit-when-zero rule on
optional fields. -/
def zeroAlgId : AlgorithmIdentifier := ⟨[], []⟩

def zeroBitString : BitString := ⟨[], 0⟩

def zeroSignature : signature := ⟨zeroAlgId, zeroBitString, []⟩

def zeroResponseBytes : responseBytes := ⟨[], []⟩

def zeroRevokedInfo : RevokedInfo := ⟨0, 0⟩

/-- The nonce extension object identifier, from the source:
`1.3.6.1.5.5.7.48.1.2`. -/
def OidOcspNonce : OID := [1, 3, 6, 1, 5, 5, 7, 48, 1, 2]

/-- The basic-response type object identifier, from the source:
`1.3.6.1.5.5.7.48.1.1`. -/
def OidOcspBasicResponse : OID := [1, 3, 6, 1, 5, 5, 7, 48, 1, 1]

/-! ## Encoders (modelled from the spec, section 6 tagging table) -/

/-- Modelled from the spec: AlgorithmIdentifier — the algorithm object
identifier then the optional raw parameters. -/
def encodeAlgIdContent (a : AlgorithmIdentifier) : Bytes :=
  encodeOID a.Algorithm ++ a.Parameters

def encodeAlgId (a : AlgorithmIdentifier) : Bytes := encodeTLV 48 (encodeAlgIdContent a)

/-- Modelled from the spec: an extension — object identifier, optional
criticality flag (omitted when false), opaque octet-string value. -/
def encodeExtensionContent (e : Extension) : Bytes :=
  encodeOID e.Id ++ (if e.Critical then encodeTLV 1 [255] else []) ++ encodeTLV 4 e.Value

def encodeExtension (e : Extension) : Bytes := encodeTLV 48 (encodeExtensionContent e)

/-- Content octets of a SEQUENCE OF Extension. -/
def encodeExtensionListInner (l : List Extension) : Bytes := (l.map encodeExtension).flatten

/-- Modelled from the spec: CertID — hash algorithm, issuer name hash,
issuer key hash, serial number. -/
def encodeCertIDContent (c : certID) : Bytes :=
  encodeAlgId c.HashAlgorithm ++ encodeTLV 4 c.NameHash ++ encodeTLV 4 c.IssuerKeyHash ++
    encodeTLV 2 (encodeIntContent c.SerialNumber)

def encodeCertID (c : certID) : Bytes := encodeTLV 48 (encodeCertIDContent c)

/-- Modelled from the spec: a per-certificate request — CertID then
optional explicit [0] single-request extensions. -/
def encodeRequestContent (r : request) : Bytes :=
  encodeCertID r.ReqCert ++
    encOptTLV 160 (if r.SingleRequestExtensions = [] then none
      else some (encodeTLV 48 (encodeExtensionListInner r.SingleRequestExtensions)))

def encodeRequest (r : request) : Bytes := encodeTLV 48 (encodeRequestContent r)

/-- Modelled from the spec: tbsRequest — optional explicit [0] version
(default 0 omitted), optional explicit [1] requestor name, request list,
optional explicit [2] extensions. -/
def encodeTbsRequestContent (t : tbsRequest) : Bytes :=
  encOptTLV 160 (if t.Version = 0 then none
      else some (encodeTLV 2 (encodeIntContent t.Version))) ++
  encOptTLV 161 (if t.RequestorName = [] then none else some t.RequestorName) ++
  encodeTLV 48 ((t.RequestList.map encodeRequest).flatten) ++
  encOptTLV 162 (if t.ExtensionList = [] then none
      else some (encodeTLV 48 (encodeExtensionListInner t.ExtensionList)))

def encodeBitString (b : BitString) : Bytes := encodeTLV 3 (encodeBitStringContent b)

/-- Modelled from the spec: the signature block — algorithm, bit string,
optional explicit [0] carried certificates (a sequence of sequences of raw
values). -/
def encodeSignatureContent (s : signature) : Bytes :=
  encodeAlgId s.SignatureAlgorithm ++ encodeBitString s.Signature ++
    encOptTLV 160 (if s.Certs = [] then none
      else some (encodeTLV 48 ((s.Certs.map (fun cert => encodeTLV 48 cert.flatten)).flatten)))

/-- Modelled from the spec: OCSPRequest — tbsRequest then optional
explicit [0] signature (omitted at the zero value, as the Go encoder omits
optional zero-valued fields). -/
def encodeOcspRequestContent (r : OcspRequest) : Bytes :=
  encodeTLV 48 (encodeTbsRequestContent r.TBSRequest) ++
    encOptTLV 160 (if r.Signature = zeroSignature then none
      else some (encodeTLV 48 (encodeSignatureContent r.Signature)))

/-- MarshalRequest, as in the source: serialize the request value. The DER
layer is modelled from the spec. -/
def MarshalRequest (ocspRequest : OcspRequest) : Bytes :=
  encodeTLV 48 (encodeOcspRequestContent ocspRequest)

/-- Modelled from the spec: responseBytes — response type object
identifier then the opaque response octet string. -/
def encodeResponseBytesContent (rb : responseBytes) : Bytes :=
  encodeOID rb.ResponseType ++ encodeTLV 4 rb.Response

/-- Modelled from the spec: OCSPResponse — enumerated status then optional
explicit [0] responseBytes. -/
def encodeOcspResponseContent (r : OcspResponse) : Bytes :=
  encodeTLV 10 (encodeIntContent r.ResponseStatus) ++
    encOptTLV 160 (if r.ResponseBytes = zeroResponseBytes then none
      else some (encodeTLV 48 (encodeResponseBytesContent r.ResponseBytes)))

/-- MarshalResponse, as in the source: serialize the response envelope. -/
def MarshalResponse (response : OcspResponse) : Bytes :=
  encodeTLV 48 (encodeOcspResponseContent response)

/-- Modelled from the spec: RevokedInfo — revocation time then optional
explicit [0] enumerated reason (default 0 omitted). -/
def encodeRevokedInfoContent (ri : RevokedInfo) : Bytes :=
  encodeTime ri.RevocationTime ++
    encOptTLV 160 (if ri.RevocationReason = 0 then none
      else some (encodeTLV 10 (encodeIntContent ri.RevocationReason)))

/-- The good-status slot of a SingleResponse on the wire: an implicit [0]
empty element when the flag is set, nothing otherwise. -/
def goodPart (sr : singleResponse) : Bytes :=
  encOptTLV 128 (if sr.Good then some [] else none)

/-- The revoked-status slot of a SingleResponse on the wire: an implicit
[1] RevokedInfo when not the zero value, nothing otherwise. -/
def revokedPart (sr : singleResponse) : Bytes :=
  encOptTLV 161 (if sr.Revoked = zeroRevokedInfo then none
    else some (encodeRevokedInfoContent sr.Revoked))

/-- The unknown-status slot of a SingleResponse on the wire: an implicit
[2] empty element when the flag is set, nothing otherwise. -/
def unknownPart (sr : singleResponse) : Bytes :=
  encOptTLV 130 (if sr.Unknown then some [] else none)

/-- Modelled from the spec: SingleResponse — CertID, the three status
slots, thisUpdate, optional explicit [0] nextUpdate, optional explicit [1]
extensions. -/
def encodeSingleResponseContent (sr : singleResponse) : Bytes :=
  encodeCertID sr.CertID ++ goodPart sr ++ revokedPart sr ++ unknownPart sr ++
    encodeTime sr.ThisUpdate ++
    encOptTLV 160 (if sr.NextUpdate = 0 then none else some (encodeTime sr.NextUpdate)) ++
    encOptTLV 161 (if sr.SingleExtensions = [] then none
      else some (encodeTLV 48 (encodeExtensionListInner sr.SingleExtensions)))

def encodeSingleResponse (sr : singleResponse) : Bytes :=
  encodeTLV 48 (encodeSingleResponseContent sr)

/-- Modelled from the spec: ResponseData — optional explicit [0] version
(default 0 omitted), raw responder identifier, producedAt, the sequence of
single responses, optional explicit [1] response extensions. -/
def encodeResponseDataContent (rd : responseData) : Bytes :=
  encOptTLV 160 (if rd.Version = 0 then none
      else some (encodeTLV 2 (encodeIntContent rd.Version))) ++
  rd.ResponderID ++
  encodeTime rd.ProducedAt ++
  encodeTLV 48 ((rd.Responses.map encodeSingleResponse).flatten) ++
  encOptTLV 161 (if rd.ResponseExtensions = [] then none
      else some (encodeTLV 48 (encodeExtensionListInner rd.ResponseExtensions)))

/-- Modelled from the spec: BasicOCSPResponse — response data, signature
algorithm, signature bits, optional explicit [0] carried certificates. -/
def encodeBasicResponseContent (b : BasicResponse) : Bytes :=
  encodeTLV 48 (encodeResponseDataContent b.TBSResponseData) ++
    encodeAlgId b.SignatureAlgorithm ++
    encodeBitString b.Signature ++
    encOptTLV 160 (if b.Certs = [] then none else some (encodeTLV 48 b.Certs.flatten))

def encodeBasicResponse (b : BasicResponse) : Bytes :=
  encodeTLV 48 (encodeBasicResponseContent b)

/-! ## Parsers (modelled from the spec) -/

/-- Modelled from the spec: parse a tagged element whose content must be
decodable by the given content parser, consuming it entirely. -/
def parseStruct {α : Type} (tag : Nat) (pc : Bytes → Option α) (bs : Bytes) :
    Option (α × Bytes) :=
  match takeReq tag bs with
  | none => none
  | some (c, rest) =>
    match pc c with
    | none => none
    | some x => some (x, rest)

/-- Modelled from the spec: the content of an explicit tag wrapping a
single INTEGER element; an absent optional yields the default 0. -/
def parseExplicitInt (o : Option Bytes) : Option Int :=
  match o with
  | none => some 0
  | some vc =>
    match takeReq 2 vc with
    | some (ic, rest) => if rest = [] then parseIntContent ic else none
    | none => none

/-- Modelled from the spec: the content of an explicit tag wrapping a
single ENUMERATED element; an absent optional yields the default 0. -/
def parseExplicitEnum (o : Option Bytes) : Option Int :=
  match o with
  | none => some 0
  | some vc =>
    match takeReq 10 vc with
    | some (ic, rest) => if rest = [] then parseIntContent ic else none
    | none => none

/-- Modelled from the spec: the content of an explicit tag wrapping a
single GeneralizedTime element; an absent optional yields the zero time. -/
def parseExplicitTime (o : Option Bytes) : Option Nat :=
  match o with
  | none => some 0
  | some tc =>
    match takeReq 24 tc with
    | some (ic, rest) => if rest = [] then parseTimeContent ic else none
    | none => none

/-- Modelled from the spec: parse one AlgorithmIdentifier content — the
object identifier, then either nothing or one raw parameters element. -/
def parseAlgIdContent (c : Bytes) : Option AlgorithmIdentifier :=
  match takeReq 6 c with
  | none => none
  | some (oc, rest) =>
    match parseOIDContent oc with
    | none => none
    | some oid =>
      if rest = [] then some ⟨oid, []⟩
      else
        match takeRawTLV rest with
        | some (raw, rest2) => if rest2 = [] then some ⟨oid, raw⟩ else none
        | none => none

def parseAlgId (bs : Bytes) : Option (AlgorithmIdentifier × Bytes) :=
  parseStruct 48 parseAlgIdContent bs

/-- Modelled from the spec: parse one Extension content — object
identifier, optional BOOLEAN criticality, octet-string value. -/
def parseExtensionContent (c : Bytes) : Option Extension :=
  match takeReq 6 c with
  | none => none
  | some (oc, rest) =>
    match parseOIDContent oc with
    | none => none
    | some oid =>
      match takeTagged 1 rest with
      | none => none
      | some (bo, rest2) =>
        match (match bo with
               | none => some false
               | some bc => parseBoolContent bc) with
        | none => none
        | some crit =>
          match takeReq 4 rest2 with
          | some (v, rest3) => if rest3 = [] then some ⟨oid, crit, v⟩ else none
          | none => none

def parseExtension (bs : Bytes) : Option (Extension × Bytes) :=
  parseStruct 48 parseExtensionContent bs

/-- Modelled from the spec: the content of an explicit tag wrapping a
SEQUENCE OF Extension; an absent optional yields the empty list. -/
def parseOptExtList (o : Option Bytes) : Option (List Extension) :=
  match o with
  | none => some []
  | some ec =>
    match takeReq 48 ec with
    | some (inner, rest) =>
        if rest = [] then parseMany parseExtension inner.length inner else none
    | none => none

/-- Modelled from the spec: parse one CertID content. -/
def parseCertIDContent (c : Bytes) : Option certID :=
  match parseAlgId c with
  | none => none
  | some (alg, r1) =>
    match takeReq 4 r1 with
    | none => none
    | some (nh, r2) =>
      match takeReq 4 r2 with
      | none => none
      | some (ikh, r3) =>
        match takeReq 2 r3 with
        | none => none
        | some (ic, r4) =>
          match parseIntContent ic with
          | none => none
          | some sn => if r4 = [] then some ⟨alg, nh, ikh, sn⟩ else none

def parseCertID (bs : Bytes) : Option (certID × Bytes) :=
  parseStruct 48 parseCertIDContent bs

/-- Modelled from the spec: parse one per-certificate request content. -/
def parseRequestContent (c : Bytes) : Option request :=
  match parseCertID c with
  | none => none
  | some (cid, r1) =>
    match takeTagged 160 r1 with
    | none => none
    | some (eo, r2) =>
      match parseOptExtList eo with
      | none => none
      | some exts => if r2 = [] then some ⟨cid, exts⟩ else none

def parseRequest (bs : Bytes) : Option (request × Bytes) :=
  parseStruct 48 parseRequestContent bs

/-- Modelled from the spec: the content of the explicit [1] requestor-name
wrapper — exactly one raw SEQUENCE element, kept opaque. -/
def parseRequestorName (o : Option Bytes) : Option Bytes :=
  match o with
  | none => some []
  | some rc =>
    match takeRawTLV rc with
    | some (raw, rest) =>
        if rest = [] then (if raw.head? = some 48 then some raw else none) else none
    | none => none

/-- Modelled from the spec: parse tbsRequest content. -/
def parseTbsRequestContent (c : Bytes) : Option tbsRequest :=
  match takeTagged 160 c with
  | none => none
  | some (vo, c1) =>
    match parseExplicitInt vo with
    | none => none
    | some ver =>
      match takeTagged 161 c1 with
      | none => none
      | some (no, c2) =>
        match parseRequestorName no with
        | none => none
        | some name =>
          match takeReq 48 c2 with
          | none => none
          | some (rlc, c3) =>
            match parseMany parseRequest rlc.length rlc with
            | none => none
            | some rl =>
              match takeTagged 162 c3 with
              | none => none
              | some (eo, c4) =>
                match parseOptExtList eo with
                | none => none
                | some exts => if c4 = [] then some ⟨ver, name, rl, exts⟩ else none

def parseBitStringTLV (bs : Bytes) : Option (BitString × Bytes) :=
  parseStruct 3 parseBitStringContent bs

/-- Modelled from the spec: parse the carried-certificates content of the
signature block — a sequence of sequences of raw elements. -/
def parseCertChain (bs : Bytes) : Option (List Bytes × Bytes) :=
  parseStruct 48 (fun c => parseMany takeRawTLV c.length c) bs

/-- Modelled from the spec: the content of the explicit [0] certificates
wrapper of the signature block. -/
def parseOptSigCerts (o : Option Bytes) : Option (List (List Bytes)) :=
  match o with
  | none => some []
  | some ec =>
    match takeReq 48 ec with
    | some (inner, rest) =>
        if rest = [] then parseMany parseCertChain inner.length inner else none
    | none => none

/-- Modelled from the spec: parse the signature block content. -/
def parseSignatureContent (c : Bytes) : Option signature :=
  match parseAlgId c with
  | none => none
  | some (alg, r1) =>
    match parseBitStringTLV r1 with
    | none => none
    | some (bits, r2) =>
      match takeTagged 160 r2 with
      | none => none
      | some (co, r3) =>
        match parseOptSigCerts co with
        | none => none
        | some certs => if r3 = [] then some ⟨alg, bits, certs⟩ else none

/-- Modelled from the spec: the content of the explicit [0] signature
wrapper of an OCSPRequest; an absent optional yields the zero value, as the
Go decoder leaves an absent optional struct at its zero value. -/
def parseOptSignature (o : Option Bytes) : Option signature :=
  match o with
  | none => some zeroSignature
  | some sc =>
    match takeReq 48 sc with
    | some (inner, rest) =>
        if rest = [] then parseSignatureContent inner else none
    | none => none

/-- Modelled from the spec: parse an OCSPRequest content. -/
def parseOcspRequestContent (c : Bytes) : Option OcspRequest :=
  match takeReq 48 c with
  | none => none
  | some (tc, c1) =>
    match parseTbsRequestContent tc with
    | none => none
    | some tbs =>
      match takeTagged 160 c1 with
      | none => none
      | some (so, c2) =>
        match parseOptSignature so with
        | none => none
        | some sig => if c2 = [] then some ⟨tbs, sig⟩ else none

def parseOcspRequest (bs : Bytes) : Option (OcspRequest × Bytes) :=
  parseStruct 48 parseOcspRequestContent bs

/-- Modelled from the spec: parse a responseBytes content. -/
def parseResponseBytesContent (c : Bytes) : Option responseBytes :=
  match takeReq 6 c with
  | none => none
  | some (oc, rest) =>
    match parseOIDContent oc with
    | none => none
    | some oid =>
      match takeReq 4 rest with
      | some (v, rest2) => if rest2 = [] then some ⟨oid, v⟩ else none
      | none => none

/-- Modelled from the spec: the content of the explicit [0] responseBytes
wrapper; an absent optional yields the zero value. -/
def parseOptResponseBytes (o : Option Bytes) : Option responseBytes :=
  match o with
  | none => some zeroResponseBytes
  | some rc =>
    match takeReq 48 rc with
    | some (inner, rest) =>
        if rest = [] then parseResponseBytesContent inner else none
    | none => none

/-- Modelled from the spec: parse an OCSPResponse content. -/
def parseOcspResponseContent (c : Bytes) : Option OcspResponse :=
  match takeReq 10 c with
  | none => none
  | some (sc, c1) =>
    match parseIntContent sc with
    | none => none
    | some status =>
      match takeTagged 160 c1 with
      | none => none
      | some (ro, c2) =>
        match parseOptResponseBytes ro with
        | none => none
        | some rb => if c2 = [] then some ⟨status, rb⟩ else none

def parseOcspResponse (bs : Bytes) : Option (OcspResponse × Bytes) :=
  parseStruct 48 parseOcspResponseContent bs

/-- Modelled from the spec: parse a RevokedInfo content. -/
def parseRevokedInfoContent (c : Bytes) : Option RevokedInfo :=
  match takeReq 24 c with
  | none => none
  | some (tc, r1) =>
    match parseTimeContent tc with
    | none => none
    | some t =>
      match takeTagged 160 r1 with
      | none => none
      | some (ro, r2) =>
        match parseExplicitEnum ro with
        | none => none
        | some reason => if r2 = [] then some ⟨t, reason⟩ else none

/-- Modelled from the spec: the implicit [1] revoked slot; an absent
optional yields the zero value. -/
def parseOptRevoked (o : Option Bytes) : Option RevokedInfo :=
  match o with
  | none => some zeroRevokedInfo
  | some rc => parseRevokedInfoContent rc

/-- Modelled from the spec: parse a SingleResponse content. The two flag
slots are set by mere presence of their tags, as the Go decoder does for
`asn1.Flag`. -/
def parseSingleResponseContent (c : Bytes) : Option singleResponse :=
  match parseCertID c with
  | none => none
  | some (cid, r1) =>
    match takeTagged 128 r1 with
    | none => none
    | some (go, r2) =>
      match takeTagged 161 r2 with
      | none => none
      | some (ro, r3) =>
        match parseOptRevoked ro with
        | none => none
        | some rev =>
          match takeTagged 130 r3 with
          | none => none
          | some (uo, r4) =>
            match takeReq 24 r4 with
            | none => none
            | some (tc, r5) =>
              match parseTimeContent tc with
              | none => none
              | some tu =>
                match takeTagged 160 r5 with
                | none => none
                | some (nuo, r6) =>
                  match parseExplicitTime nuo with
                  | none => none
                  | some nu =>
                    match takeTagged 161 r6 with
                    | none => none
                    | some (eo, r7) =>
                      match parseOptExtList eo with
                      | none => none
                      | some exts =>
                        if r7 = [] then
                          some ⟨cid, go.isSome, rev, uo.isSome, tu, nu, exts⟩
                        else none

def parseSingleResponse (bs : Bytes) : Option (singleResponse × Bytes) :=
  parseStruct 48 parseSingleResponseContent bs

/-- Modelled from the spec: parse a ResponseData content. -/
def parseResponseDataContent (c : Bytes) : Option responseData :=
  match takeTagged 160 c with
  | none => none
  | some (vo, c1) =>
    match parseExplicitInt vo with
    | none => none
    | some ver =>
      match takeRawTLV c1 with
      | none => none
      | some (rid, c2) =>
        match takeReq 24 c2 with
        | none => none
        | some (tc, c3) =>
          match parseTimeContent tc with
          | none => none
          | some pa =>
            match takeReq 48 c3 with
            | none => none
            | some (rsc, c4) =>
              match parseMany parseSingleResponse rsc.length rsc with
              | none => none
              | some rs =>
                match takeTagged 161 c4 with
                | none => none
                | some (eo, c5) =>
                  match parseOptExtList eo with
                  | none => none
                  | some exts => if c5 = [] then some ⟨ver, rid, pa, rs, exts⟩ else none

/-- Modelled from the spec: the content of the explicit [0] carried
certificates of a BasicResponse — one SEQUENCE of raw elements. -/
def parseOptBasicCerts (o : Option Bytes) : Option (List Bytes) :=
  match o with
  | none => some []
  | some ec =>
    match takeReq 48 ec with
    | some (inner, rest) =>
        if rest = [] then parseMany takeRawTLV inner.length inner else none
    | none => none

/-- Modelled from the spec: parse a BasicResponse content. -/
def parseBasicResponseContent (c : Bytes) : Option BasicResponse :=
  match parseStruct 48 parseResponseDataContent c with
  | none => none
  | some (rd, c1) =>
    match parseAlgId c1 with
    | none => none
    | some (alg, c2) =>
      match parseBitStringTLV c2 with
      | none => none
      | some (bits, c3) =>
        match takeTagged 160 c3 with
        | none => none
        | some (co, c4) =>
          match parseOptBasicCerts co with
          | none => none
          | some certs => if c4 = [] then some ⟨rd, alg, bits, certs⟩ else none

def parseBasicResponse (bs : Bytes) : Option (BasicResponse × Bytes) :=
  parseStruct 48 parseBasicResponseContent bs

/-! ## Well-formedness

Constructibility conditions under which the modelled encoder produces
parseable DER: valid object identifiers, in-range timestamps, consistent
bit strings, and raw fields that are single well-formed elements. -/

def wfAlgId (a : AlgorithmIdentifier) : Bool :=
  oidValid a.Algorithm && (decide (a.Parameters = []) || isFullTLV a.Parameters)

def wfExtension (e : Extension) : Bool := oidValid e.Id

def wfCertID (c : certID) : Bool := wfAlgId c.HashAlgorithm

def wfRequest (r : request) : Bool :=
  wfCertID r.ReqCert && r.SingleRequestExtensions.all wfExtension

def wfRequestorName (bs : Bytes) : Bool :=
  decide (bs = []) || (isFullTLV bs && decide (bs.head? = some 48))

def wfTbsRequest (t : tbsRequest) : Bool :=
  wfRequestorName t.RequestorName && t.RequestList.all wfRequest &&
    t.ExtensionList.all wfExtension

def wfSignature (s : signature) : Bool :=
  wfAlgId s.SignatureAlgorithm && wfBitString s.Signature &&
    s.Certs.all (fun cert => cert.all isFullTLV)

def wfOcspRequest (r : OcspRequest) : Bool :=
  wfTbsRequest r.TBSRequest &&
    (decide (r.Signature = zeroSignature) || wfSignature r.Signature)

def wfResponseBytes (rb : responseBytes) : Bool :=
  decide (rb = zeroResponseBytes) || oidValid rb.ResponseType

def wfOcspResponse (r : OcspResponse) : Bool := wfResponseBytes r.ResponseBytes

def wfRevokedInfo (ri : RevokedInfo) : Bool := decide (ri.RevocationTime < 10 ^ 14)

def wfSingleResponse (sr : singleResponse) : Bool :=
  wfCertID sr.CertID && wfRevokedInfo sr.Revoked &&
    decide (sr.ThisUpdate < 10 ^ 14) && decide (sr.NextUpdate < 10 ^ 14) &&
    sr.SingleExtensions.all wfExtension

def wfResponderID (bs : Bytes) : Bool :=
  isFullTLV bs && decide (bs.head? ≠ some 160)

def wfResponseData (rd : responseData) : Bool :=
  wfResponderID rd.ResponderID && decide (rd.ProducedAt < 10 ^ 14) &&
    rd.Responses.all wfSingleResponse && rd.ResponseExtensions.all wfExtension

def wfBasicResponse (b : BasicResponse) : Bool :=
  wfResponseData b.TBSResponseData && wfAlgId b.SignatureAlgorithm &&
    wfBitString b.Signature && b.Certs.all isFullTLV

/-! ## Top-level codec operations

These translate the exported functions of the source; the spec's two error
kinds are Malformed and TrailingData. -/

inductive DecodeError where
  | malformed
  | trailingData
deriving DecidableEq

instance {e a : Type} [DecidableEq e] [DecidableEq a] : DecidableEq (Except e a)
  | .ok x, .ok y =>
    match decEq x y with
    | isTrue h => isTrue (by rw [h])
    | isFalse h => isFalse (by intro hc; cases hc; exact h rfl)
  | .ok x, .error y => isFalse (by intro hc; cases hc)
  | .error x, .ok y => isFalse (by intro hc; cases hc)
  | .error x, .error y =>
    match decEq x y with
    | isTrue h => isTrue (by rw [h])
    | isFalse h => isFalse (by intro hc; cases hc; exact h rfl)

/-- UnmarshalRequest, translated from the source: decode, then fail with
the trailing-data error when unconsumed bytes remain. -/
def UnmarshalRequest (request : Bytes) : Except DecodeError OcspRequest :=
  match parseOcspRequest request with
  | none => .error .malformed
  | some (req, rest) => if rest = [] then .ok req else .error .trailingData

/-- UnmarshalResponse, translated from the source. -/
def UnmarshalResponse (response : Bytes) : Except DecodeError OcspResponse :=
  match parseOcspResponse response with
  | none => .error .malformed
  | some (resp, rest) => if rest = [] then .ok resp else .error .trailingData

/-- UnmarshalBasicResponse, translated from the source. -/
def UnmarshalBasicResponse (basicResponse : Bytes) : Except DecodeError BasicResponse :=
  match parseBasicResponse basicResponse with
  | none => .error .malformed
  | some (basic, rest) => if rest = [] then .ok basic else .error .trailingData

/-! ## Status normalization and accessors, translated from the source -/

/-- RevokedInfo.IsEmpty, translated from the source: the revocation time is
the zero instant (the source tests both IsZero and equality with the zero
time, which coincide in the model). -/
def RevokedInfo.IsEmpty (ri : RevokedInfo) : Bool := decide (ri.RevocationTime = 0)

/-- The per-entry normalization performed by the loop body of
MarshalBasicResponse, translated from the source. Each taken branch builds
a fresh zero-valued singleResponse, copies CertID, ThisUpdate, NextUpdate
and SingleExtensions, and sets the surviving status slot. -/
def normalizeSingle (sr : singleResponse) : singleResponse :=
  if sr.Good && sr.Unknown then
    { CertID := sr.CertID, Good := true, Revoked := zeroRevokedInfo, Unknown := false,
      ThisUpdate := sr.ThisUpdate, NextUpdate := sr.NextUpdate,
      SingleExtensions := sr.SingleExtensions }
  else if !sr.Revoked.IsEmpty && sr.Unknown then
    { CertID := sr.CertID, Good := false, Revoked := sr.Revoked, Unknown := false,
      ThisUpdate := sr.ThisUpdate, NextUpdate := sr.NextUpdate,
      SingleExtensions := sr.SingleExtensions }
  else if !sr.Good && sr.Revoked.IsEmpty then
    { CertID := sr.CertID, Good := false, Revoked := zeroRevokedInfo, Unknown := true,
      ThisUpdate := sr.ThisUpdate, NextUpdate := sr.NextUpdate,
      SingleExtensions := sr.SingleExtensions }
  else sr

/-- MarshalBasicResponse, translated from the source: the loop normalizes
every entry in place (assigning through the index), then the value is
serialized. The result pairs the mutated value with the bytes. -/
def MarshalBasicResponse (basicResponse : BasicResponse) : BasicResponse × Bytes :=
  let b := { basicResponse with
    TBSResponseData := { basicResponse.TBSResponseData with
      Responses := basicResponse.TBSResponseData.Responses.map normalizeSingle } }
  (b, encodeBasicResponse b)

/-- MarshalResponseFromBasic, translated from the source. The source's own
range loop assigns `sr.Unknown` on the loop copy of each element, so it
leaves the list unchanged; the effective normalization happens inside
MarshalBasicResponse. The envelope carries status 0 and the basic-response
type identifier. -/
def MarshalResponseFromBasic (basicResponse : BasicResponse) : BasicResponse × Bytes :=
  let r := MarshalBasicResponse basicResponse
  (r.1, MarshalResponse
    { ResponseStatus := 0,
      ResponseBytes := { ResponseType := OidOcspBasicResponse, Response := r.2 } })

/-- OcspRequest.Nonce, translated from the source: scan the top-level
extension list for the nonce object identifier and return its value, or
nil (modelled as `none`). -/
def OcspRequest.Nonce (r : OcspRequest) : Option Bytes :=
  (r.TBSRequest.ExtensionList.find? (fun e => e.Id == OidOcspNonce)).map Extension.Value

/-- SetNonce, translated from the source. When the extension list is empty
a nonce extension is appended; otherwise the range loop assigns the new
value only to its loop copy of any matching extension (so the stored list
keeps the old value), and appends only when no match was found. An
out-of-range index fails (the Go code panics on the slice index). -/
def BasicResponse.SetNonce (basicResponse : BasicResponse) (index : Int) (nonce : Bytes) :
    Option BasicResponse :=
  let resps := basicResponse.TBSResponseData.Responses
  if h : 0 ≤ index ∧ index.toNat < resps.length then
    let old := resps.get ⟨index.toNat, h.2⟩
    let extList := old.SingleExtensions
    let newList :=
      if extList.length = 0 then extList ++ [⟨OidOcspNonce, false, nonce⟩]
      else if extList.any (fun e => e.Id == OidOcspNonce) then extList
      else extList ++ [⟨OidOcspNonce, false, nonce⟩]
    some { basicResponse with
      TBSResponseData := { basicResponse.TBSResponseData with
        Responses := resps.set index.toNat { old with SingleExtensions := newList } } }
  else none

/-- GetNonce, translated from the source: the value of the first matching
nonce extension of the indexed entry, or nil. An out-of-range index fails
(the Go code panics on the slice index). -/
def BasicResponse.GetNonce (basicResponse : BasicResponse) (index : Int) :
    Option (Option Bytes) :=
  let resps := basicResponse.TBSResponseData.Responses
  if h : 0 ≤ index ∧ index.toNat < resps.length then
    some (((resps.get ⟨index.toNat, h.2⟩).SingleExtensions.find?
      (fun e => e.Id == OidOcspNonce)).map Extension.Value)
  else none

/-- ClearStatus, translated from the source: reset the three status slots
of the indexed entry. An out-of-range index fails (the Go code panics on
the slice index). -/
def BasicResponse.ClearStatus (basicResponse : BasicResponse) (index : Int) :
    Option BasicResponse :=
  let resps := basicResponse.TBSResponseData.Responses
  if h : 0 ≤ index ∧ index.toNat < resps.length then
    some { basicResponse with
      TBSResponseData := { basicResponse.TBSResponseData with
        Responses := resps.set index.toNat
          { resps.get ⟨index.toNat, h.2⟩ with
            Good := false, Unknown := false, Revoked := zeroRevokedInfo } } }
  else none

/-! ## Round-trip lemmas, bottom up -/

theorem isFullTLV_ne_nil {bs : Bytes} (h : isFullTLV bs = true) : bs ≠ [] := by
  intro hc
  rw [hc] at h
  simp [isFullTLV, parseTLV] at h

theorem takeReq_encodeTLV_nil (t : Nat) (c : Bytes) :
    takeReq t (encodeTLV t c) = some (c, []) := by
  have h := takeReq_encodeTLV t c []
  rwa [List.append_nil] at h

theorem takeRawTLV_full_nil (raw : Bytes) (h : isFullTLV raw = true) :
    takeRawTLV raw = some (raw, []) := by
  have h2 := takeRawTLV_full raw [] h
  rwa [List.append_nil] at h2

theorem takeTagged_encOptTLV_nil (t : Nat) (o : Option Bytes) :
    takeTagged t (encOptTLV t o) = some (o, []) := by
  have h := takeTagged_encOptTLV t o [] (by simp)
  rwa [List.append_nil] at h

theorem head?_encOptTLV_append (t : Nat) (o : Option Bytes) (s : Bytes) :
    (encOptTLV t o ++ s).head? = some t ∨ (encOptTLV t o ++ s).head? = s.head? := by
  match o with
  | none => right; rw [encOptTLV, List.nil_append]
  | some c => left; exact encodeTLV_head t c s

theorem parseStruct_encode {α : Type} (tag : Nat) (pc : Bytes → Option α) (x : α)
    (c : Bytes) (hc : pc c = some x) (s : Bytes) :
    parseStruct tag pc (encodeTLV tag c ++ s) = some (x, s) := by
  unfold parseStruct
  rw [takeReq_encodeTLV]
  simp only [hc]

theorem parseStruct_encode_nil {α : Type} (tag : Nat) (pc : Bytes → Option α) (x : α)
    (c : Bytes) (hc : pc c = some x) :
    parseStruct tag pc (encodeTLV tag c) = some (x, []) := by
  have h := parseStruct_encode tag pc x c hc []
  rwa [List.append_nil] at h

theorem parseAlgIdContent_encode (a : AlgorithmIdentifier) (h : wfAlgId a = true) :
    parseAlgIdContent (encodeAlgIdContent a) = some a := by
  unfold wfAlgId at h
  simp only [Bool.and_eq_true, Bool.or_eq_true, decide_eq_true_eq] at h
  unfold encodeAlgIdContent encodeOID parseAlgIdContent
  rw [takeReq_encodeTLV]
  simp only [parseOIDContent_encodeOIDContent a.Algorithm h.1]
  rcases h.2 with hnil | hfull
  · rw [if_pos hnil, ← hnil]
  · rw [if_neg (isFullTLV_ne_nil hfull), takeRawTLV_full_nil _ hfull]
    simp

theorem parseAlgId_encode (a : AlgorithmIdentifier) (h : wfAlgId a = true) (s : Bytes) :
    parseAlgId (encodeAlgId a ++ s) = some (a, s) :=
  parseStruct_encode 48 parseAlgIdContent a _ (parseAlgIdContent_encode a h) s

theorem parseExtensionContent_encode (e : Extension) (h : wfExtension e = true) :
    parseExtensionContent (encodeExtensionContent e) = some e := by
  unfold encodeExtensionContent encodeOID parseExtensionContent
  rw [List.append_assoc, takeReq_encodeTLV]
  simp only [parseOIDContent_encodeOIDContent e.Id h]
  by_cases hc : e.Critical
  · rw [if_pos hc]
    have hb : encodeTLV 1 [255] ++ encodeTLV 4 e.Value =
        encOptTLV 1 (some [255]) ++ encodeTLV 4 e.Value := rfl
    rw [hb, takeTagged_encOptTLV 1 (some [255]) _ (by simp [encodeTLV])]
    simp only [parseBoolContent]
    rw [takeReq_encodeTLV_nil]
    simp only [if_pos rfl, Option.some.injEq]
    cases e
    simp_all
  · rw [if_neg hc, List.nil_append]
    have hb : encodeTLV 4 e.Value = encOptTLV 1 none ++ encodeTLV 4 e.Value := rfl
    rw [hb, takeTagged_encOptTLV 1 none _ (by simp [encodeTLV])]
    simp only
    rw [takeReq_encodeTLV_nil]
    simp only [if_pos rfl, Option.some.injEq]
    cases e
    simp_all

theorem parseExtension_encode (e : Extension) (h : wfExtension e = true) (s : Bytes) :
    parseExtension (encodeExtension e ++ s) = some (e, s) :=
  parseStruct_encode 48 parseExtensionContent e _ (parseExtensionContent_encode e h) s

theorem parseManyExtensions (l : List Extension) (h : l.all wfExtension = true) :
    parseMany parseExtension (encodeExtensionListInner l).length
      (encodeExtensionListInner l) = some l := by
  unfold encodeExtensionListInner
  exact parseMany_encodes parseExtension encodeExtension l
    (fun x hx s => parseExtension_encode x (by
      rw [List.all_eq_true] at h
      exact h x hx) s)
    (fun x _ => encodeTLV_ne_nil 48 _)
    _ (Nat.le_refl _)

theorem parseOptExtList_none : parseOptExtList none = some [] := rfl

theorem parseOptExtList_some (l : List Extension) (h : l.all wfExtension = true) :
    parseOptExtList (some (encodeTLV 48 (encodeExtensionListInner l))) = some l := by
  simp only [parseOptExtList, takeReq_encodeTLV_nil]
  rw [if_pos trivial]
  exact parseManyExtensions l h

theorem parseExplicitInt_none : parseExplicitInt none = some 0 := rfl

theorem parseExplicitInt_some (v : Int) :
    parseExplicitInt (some (encodeTLV 2 (encodeIntContent v))) = some v := by
  simp only [parseExplicitInt, takeReq_encodeTLV_nil]
  rw [if_pos trivial]
  exact parseIntContent_encodeIntContent v

theorem parseExplicitEnum_none : parseExplicitEnum none = some 0 := rfl

theorem parseExplicitEnum_some (v : Int) :
    parseExplicitEnum (some (encodeTLV 10 (encodeIntContent v))) = some v := by
  simp only [parseExplicitEnum, takeReq_encodeTLV_nil]
  rw [if_pos trivial]
  exact parseIntContent_encodeIntContent v

theorem parseExplicitTime_none : parseExplicitTime none = some 0 := rfl

theorem parseExplicitTime_some (t : Nat) (h : t < 10 ^ 14) :
    parseExplicitTime (some (encodeTime t)) = some t := by
  simp only [parseExplicitTime, encodeTime, takeReq_encodeTLV_nil]
  rw [if_pos trivial]
  exact parseTimeContent_encodeTimeContent t h

theorem parseRequestorName_none : parseRequestorName none = some [] := rfl

theorem parseRequestorName_some (bs : Bytes) (hf : isFullTLV bs = true)
    (hh : bs.head? = some 48) : parseRequestorName (some bs) = some bs := by
  simp only [parseRequestorName, takeRawTLV_full_nil bs hf]
  rw [if_pos trivial, if_pos hh]

theorem parseCertIDContent_encode (c : certID) (h : wfCertID c = true) :
    parseCertIDContent (encodeCertIDContent c) = some c := by
  have halg := parseAlgId_encode c.HashAlgorithm h
  simp only [encodeCertIDContent, parseCertIDContent, List.append_assoc, halg,
    takeReq_encodeTLV, takeReq_encodeTLV_nil, parseIntContent_encodeIntContent]
  rw [if_pos trivial]

theorem parseCertID_encode (c : certID) (h : wfCertID c = true) (s : Bytes) :
    parseCertID (encodeCertID c ++ s) = some (c, s) :=
  parseStruct_encode 48 parseCertIDContent c _ (parseCertIDContent_encode c h) s

theorem parseRequestContent_encode (r : request) (h : wfRequest r = true) :
    parseRequestContent (encodeRequestContent r) = some r := by
  unfold wfRequest at h
  simp only [Bool.and_eq_true] at h
  have hcid := parseCertID_encode r.ReqCert h.1
  have hopt : parseOptExtList (if r.SingleRequestExtensions = [] then none
      else some (encodeTLV 48 (encodeExtensionListInner r.SingleRequestExtensions)))
      = some r.SingleRequestExtensions := by
    by_cases hext : r.SingleRequestExtensions = []
    · rw [if_pos hext, parseOptExtList_none, hext]
    · rw [if_neg hext, parseOptExtList_some _ h.2]
  simp only [encodeRequestContent, parseRequestContent, hcid, takeTagged_encOptTLV_nil,
    hopt]
  rw [if_pos trivial]

theorem parseRequest_encode (r : request) (h : wfRequest r = true) (s : Bytes) :
    parseRequest (encodeRequest r ++ s) = some (r, s) :=
  parseStruct_encode 48 parseRequestContent r _ (parseRequestContent_encode r h) s

theorem parseManyRequests (l : List request) (h : l.all wfRequest = true) :
    parseMany parseRequest ((l.map encodeRequest).flatten).length
      ((l.map encodeRequest).flatten) = some l :=
  parseMany_encodes parseRequest encodeRequest l
    (fun x hx s => parseRequest_encode x (by
      rw [List.all_eq_true] at h
      exact h x hx) s)
    (fun x _ => encodeTLV_ne_nil 48 _)
    _ (Nat.le_refl _)

theorem parseTbsRequestContent_encode (t : tbsRequest) (h : wfTbsRequest t = true) :
    parseTbsRequestContent (encodeTbsRequestContent t) = some t := by
  unfold wfTbsRequest at h
  simp only [Bool.and_eq_true] at h
  obtain ⟨⟨hname, hreqs⟩, hexts⟩ := h
  rw [encodeTbsRequestContent, List.append_assoc, List.append_assoc]
  set p2 := encOptTLV 161 (if t.RequestorName = [] then none else some t.RequestorName)
    with hp2
  set p3 := encodeTLV 48 ((t.RequestList.map encodeRequest).flatten) with hp3
  set p4 := encOptTLV 162 (if t.ExtensionList = [] then none
      else some (encodeTLV 48 (encodeExtensionListInner t.ExtensionList))) with hp4
  have hh1 : (p2 ++ (p3 ++ p4)).head? ≠ some 160 := by
    rw [hp2]
    rcases head?_encOptTLV_append 161 _ (p3 ++ p4) with hc | hc <;> rw [hc]
    · simp
    · rw [hp3, encodeTLV_head]
      simp
  have h1 := takeTagged_encOptTLV 160 (if t.Version = 0 then none
      else some (encodeTLV 2 (encodeIntContent t.Version))) (p2 ++ (p3 ++ p4)) hh1
  have hver : parseExplicitInt (if t.Version = 0 then none
      else some (encodeTLV 2 (encodeIntContent t.Version))) = some t.Version := by
    by_cases hv : t.Version = 0
    · rw [if_pos hv, parseExplicitInt_none, hv]
    · rw [if_neg hv, parseExplicitInt_some]
  have hnm : parseRequestorName (if t.RequestorName = [] then none
      else some t.RequestorName) = some t.RequestorName := by
    unfold wfRequestorName at hname
    simp only [Bool.or_eq_true, Bool.and_eq_true, decide_eq_true_eq] at hname
    by_cases hn : t.RequestorName = []
    · rw [if_pos hn, parseRequestorName_none, hn]
    · rw [if_neg hn]
      rcases hname with hc | hc
      · exact absurd hc hn
      · exact parseRequestorName_some _ hc.1 hc.2
  have hh2 : (p3 ++ p4).head? ≠ some 161 := by
    rw [hp3, encodeTLV_head]
    simp
  have h2 := takeTagged_encOptTLV 161 (if t.RequestorName = [] then none
      else some t.RequestorName) (p3 ++ p4) hh2
  rw [← hp2] at h2
  have h3 := takeReq_encodeTLV 48 ((t.RequestList.map encodeRequest).flatten) p4
  rw [← hp3] at h3
  have h4 := takeTagged_encOptTLV_nil 162 (if t.ExtensionList = [] then none
      else some (encodeTLV 48 (encodeExtensionListInner t.ExtensionList)))
  rw [← hp4] at h4
  have hextl : parseOptExtList (if t.ExtensionList = [] then none
      else some (encodeTLV 48 (encodeExtensionListInner t.ExtensionList)))
      = some t.ExtensionList := by
    by_cases he : t.ExtensionList = []
    · rw [if_pos he, parseOptExtList_none, he]
    · rw [if_neg he, parseOptExtList_some _ hexts]
  simp only [parseTbsRequestContent, h1, hver, h2, hnm, h3,
    parseManyRequests t.RequestList hreqs, h4, hextl]
  rw [if_pos trivial]

theorem parseBitStringTLV_encode (b : BitString) (h : wfBitString b = true) (s : Bytes) :
    parseBitStringTLV (encodeBitString b ++ s) = some (b, s) :=
  parseStruct_encode 3 parseBitStringContent b _ (parseBitStringContent_encode b h) s

theorem parseCertChain_encode (cert : List Bytes) (h : cert.all isFullTLV = true)
    (s : Bytes) : parseCertChain (encodeTLV 48 cert.flatten ++ s) = some (cert, s) := by
  apply parseStruct_encode
  have hm := parseMany_encodes takeRawTLV id cert
    (fun x hx s2 => by
      simp only [id_eq]
      exact takeRawTLV_full x s2 (List.all_eq_true.mp h x hx))
    (fun x hx => by
      simp only [id_eq]
      exact isFullTLV_ne_nil (List.all_eq_true.mp h x hx))
    ((cert.map id).flatten.length) (Nat.le_refl _)
  rw [List.map_id] at hm
  exact hm

theorem parseManyCertChains (l : List (List Bytes))
    (h : l.all (fun cert => cert.all isFullTLV) = true) :
    parseMany parseCertChain
      ((l.map (fun cert => encodeTLV 48 cert.flatten)).flatten).length
      ((l.map (fun cert => encodeTLV 48 cert.flatten)).flatten) = some l :=
  parseMany_encodes parseCertChain (fun cert => encodeTLV 48 cert.flatten) l
    (fun x hx s => parseCertChain_encode x (List.all_eq_true.mp h x hx) s)
    (fun x _ => encodeTLV_ne_nil 48 _)
    _ (Nat.le_refl _)

theorem parseOptSigCerts_none : parseOptSigCerts none = some [] := rfl

theorem parseOptSigCerts_some (l : List (List Bytes))
    (h : l.all (fun cert => cert.all isFullTLV) = true) :
    parseOptSigCerts (some (encodeTLV 48
      ((l.map (fun cert => encodeTLV 48 cert.flatten)).flatten))) = some l := by
  simp only [parseOptSigCerts, takeReq_encodeTLV_nil]
  rw [if_pos trivial]
  exact parseManyCertChains l h

theorem parseSignatureContent_encode (s : signature) (h : wfSignature s = true) :
    parseSignatureContent (encodeSignatureContent s) = some s := by
  unfold wfSignature at h
  simp only [Bool.and_eq_true] at h
  obtain ⟨⟨halg, hbits⟩, hcerts⟩ := h
  have h1 := parseAlgId_encode s.SignatureAlgorithm halg
  have h2 := parseBitStringTLV_encode s.Signature hbits
  have hopt : parseOptSigCerts (if s.Certs = [] then none
      else some (encodeTLV 48
        ((s.Certs.map (fun cert => encodeTLV 48 cert.flatten)).flatten)))
      = some s.Certs := by
    by_cases hc : s.Certs = []
    · rw [if_pos hc, parseOptSigCerts_none, hc]
    · rw [if_neg hc, parseOptSigCerts_some _ hcerts]
  simp only [encodeSignatureContent, parseSignatureContent, List.append_assoc, h1, h2,
    takeTagged_encOptTLV_nil, hopt]
  rw [if_pos trivial]

theorem parseOptSignature_none : parseOptSignature none = some zeroSignature := rfl

theorem parseOptSignature_some (s : signature) (h : wfSignature s = true) :
    parseOptSignature (some (encodeTLV 48 (encodeSignatureContent s))) = some s := by
  simp only [parseOptSignature, takeReq_encodeTLV_nil]
  rw [if_pos trivial]
  exact parseSignatureContent_encode s h

theorem parseOcspRequestContent_encode (r : OcspRequest) (h : wfOcspRequest r = true) :
    parseOcspRequestContent (encodeOcspRequestContent r) = some r := by
  unfold wfOcspRequest at h
  simp only [Bool.and_eq_true, Bool.or_eq_true, decide_eq_true_eq] at h
  have h1 := takeReq_encodeTLV 48 (encodeTbsRequestContent r.TBSRequest)
  have h2 := parseTbsRequestContent_encode r.TBSRequest h.1
  have hopt : parseOptSignature (if r.Signature = zeroSignature then none
      else some (encodeTLV 48 (encodeSignatureContent r.Signature)))
      = some r.Signature := by
    by_cases hs : r.Signature = zeroSignature
    · rw [if_pos hs, parseOptSignature_none, hs]
    · rcases h.2 with hz | hwf
      · exact absurd hz hs
      · rw [if_neg hs, parseOptSignature_some _ hwf]
  simp only [encodeOcspRequestContent, parseOcspRequestContent, h1, h2,
    takeTagged_encOptTLV_nil, hopt]
  rw [if_pos trivial]

theorem unmarshalRequest_marshalRequest (r : OcspRequest) (h : wfOcspRequest r = true) :
    UnmarshalRequest (MarshalRequest r) = .ok r := by
  unfold UnmarshalRequest MarshalRequest
  have hp := parseStruct_encode_nil 48 parseOcspRequestContent r _
    (parseOcspRequestContent_encode r h)
  simp only [parseOcspRequest, hp]
  rw [if_pos trivial]

theorem parseResponseBytesContent_encode (rb : responseBytes)
    (h : oidValid rb.ResponseType = true) :
    parseResponseBytesContent (encodeResponseBytesContent rb) = some rb := by
  simp only [encodeResponseBytesContent, encodeOID, parseResponseBytesContent,
    List.append_assoc, takeReq_encodeTLV, takeReq_encodeTLV_nil,
    parseOIDContent_encodeOIDContent rb.ResponseType h]
  rw [if_pos trivial]

theorem parseOptResponseBytes_none :
    parseOptResponseBytes none = some zeroResponseBytes := rfl

theorem parseOptResponseBytes_some (rb : responseBytes)
    (h : oidValid rb.ResponseType = true) :
    parseOptResponseBytes (some (encodeTLV 48 (encodeResponseBytesContent rb)))
      = some rb := by
  simp only [parseOptResponseBytes, takeReq_encodeTLV_nil]
  rw [if_pos trivial]
  exact parseResponseBytesContent_encode rb h

theorem parseOcspResponseContent_encode (r : OcspResponse)
    (h : wfOcspResponse r = true) :
    parseOcspResponseContent (encodeOcspResponseContent r) = some r := by
  unfold wfOcspResponse wfResponseBytes at h
  simp only [Bool.or_eq_true, decide_eq_true_eq] at h
  have hopt : parseOptResponseBytes (if r.ResponseBytes = zeroResponseBytes then none
      else some (encodeTLV 48 (encodeResponseBytesContent r.ResponseBytes)))
      = some r.ResponseBytes := by
    by_cases hz : r.ResponseBytes = zeroResponseBytes
    · rw [if_pos hz, parseOptResponseBytes_none, hz]
    · rcases h with hc | hc
      · exact absurd hc hz
      · rw [if_neg hz, parseOptResponseBytes_some _ hc]
  simp only [encodeOcspResponseContent, parseOcspResponseContent, List.append_assoc,
    takeReq_encodeTLV, parseIntContent_encodeIntContent, takeTagged_encOptTLV_nil, hopt]
  rw [if_pos trivial]

theorem unmarshalResponse_marshalResponse (r : OcspResponse)
    (h : wfOcspResponse r = true) :
    UnmarshalResponse (MarshalResponse r) = .ok r := by
  unfold UnmarshalResponse MarshalResponse
  have hp := parseStruct_encode_nil 48 parseOcspResponseContent r _
    (parseOcspResponseContent_encode r h)
  simp only [parseOcspResponse, hp]
  rw [if_pos trivial]

theorem parseRevokedInfoContent_encode (ri : RevokedInfo) (h : wfRevokedInfo ri = true) :
    parseRevokedInfoContent (encodeRevokedInfoContent ri) = some ri := by
  unfold wfRevokedInfo at h
  simp only [decide_eq_true_eq] at h
  have hopt : parseExplicitEnum (if ri.RevocationReason = 0 then none
      else some (encodeTLV 10 (encodeIntContent ri.RevocationReason)))
      = some ri.RevocationReason := by
    by_cases hz : ri.RevocationReason = 0
    · rw [if_pos hz, parseExplicitEnum_none, hz]
    · rw [if_neg hz, parseExplicitEnum_some]
  simp only [encodeRevokedInfoContent, encodeTime, parseRevokedInfoContent,
    takeReq_encodeTLV, parseTimeContent_encodeTimeContent ri.RevocationTime h,
    takeTagged_encOptTLV_nil, hopt]
  rw [if_pos trivial]

theorem parseOptRevoked_none : parseOptRevoked none = some zeroRevokedInfo := rfl

theorem parseOptRevoked_some (ri : RevokedInfo) (h : wfRevokedInfo ri = true) :
    parseOptRevoked (some (encodeRevokedInfoContent ri)) = some ri :=
  parseRevokedInfoContent_encode ri h

theorem parseSingleResponseContent_encode (sr : singleResponse)
    (h : wfSingleResponse sr = true) :
    parseSingleResponseContent (encodeSingleResponseContent sr) = some sr := by
  unfold wfSingleResponse at h
  simp only [Bool.and_eq_true, decide_eq_true_eq] at h
  obtain ⟨⟨⟨⟨hcid, hrev⟩, htu⟩, hnu⟩, hexts⟩ := h
  rw [encodeSingleResponseContent, goodPart, revokedPart, unknownPart,
    List.append_assoc, List.append_assoc, List.append_assoc, List.append_assoc,
    List.append_assoc]
  set gOpt := (if sr.Good then some ([] : Bytes) else none) with hgo
  set rOpt := (if sr.Revoked = zeroRevokedInfo then none
    else some (encodeRevokedInfoContent sr.Revoked)) with hro
  set uOpt := (if sr.Unknown then some ([] : Bytes) else none) with huo
  set nOpt := (if sr.NextUpdate = 0 then none else some (encodeTime sr.NextUpdate))
    with hno
  set eOpt := (if sr.SingleExtensions = [] then none
    else some (encodeTLV 48 (encodeExtensionListInner sr.SingleExtensions))) with heo
  have hcert := parseCertID_encode sr.CertID hcid
  have htime := takeReq_encodeTLV 24 (encodeTimeContent sr.ThisUpdate)
  have hh3 : ∀ z : Bytes, (encodeTLV 24 (encodeTimeContent sr.ThisUpdate) ++ z).head?
      ≠ some 130 := by
    intro z
    rw [encodeTLV_head]
    simp
  have hh2 : ∀ z : Bytes, (encOptTLV 130 uOpt ++
      (encodeTLV 24 (encodeTimeContent sr.ThisUpdate) ++ z)).head? ≠ some 161 := by
    intro z
    rcases head?_encOptTLV_append 130 uOpt _ with hc | hc <;> rw [hc]
    · simp
    · rw [encodeTLV_head]
      simp
  have hh1 : ∀ z : Bytes, (encOptTLV 161 rOpt ++ (encOptTLV 130 uOpt ++
      (encodeTLV 24 (encodeTimeContent sr.ThisUpdate) ++ z))).head? ≠ some 128 := by
    intro z
    rcases head?_encOptTLV_append 161 rOpt _ with hc | hc <;> rw [hc]
    · simp
    · rcases head?_encOptTLV_append 130 uOpt _ with hc2 | hc2 <;> rw [hc2]
      · simp
      · rw [encodeTLV_head]
        simp
  have hh4 : (encOptTLV 161 eOpt).head? ≠ some 160 := by
    rcases head?_encOptTLV_append 161 eOpt [] with hc | hc <;>
      rw [List.append_nil] at hc <;> rw [hc]
    · simp
    · simp
  have h1 := takeTagged_encOptTLV 128 gOpt _ (hh1 (encOptTLV 160 nOpt ++ encOptTLV 161 eOpt))
  have h2 := takeTagged_encOptTLV 161 rOpt _ (hh2 (encOptTLV 160 nOpt ++ encOptTLV 161 eOpt))
  have h3 := takeTagged_encOptTLV 130 uOpt _ (hh3 (encOptTLV 160 nOpt ++ encOptTLV 161 eOpt))
  have h4 := takeReq_encodeTLV 24 (encodeTimeContent sr.ThisUpdate)
    (encOptTLV 160 nOpt ++ encOptTLV 161 eOpt)
  have h5 := takeTagged_encOptTLV 160 nOpt (encOptTLV 161 eOpt) hh4
  have h6 := takeTagged_encOptTLV_nil 161 eOpt
  have hrevp : parseOptRevoked rOpt = some sr.Revoked := by
    rw [hro]
    by_cases hz : sr.Revoked = zeroRevokedInfo
    · rw [if_pos hz, parseOptRevoked_none, hz]
    · rw [if_neg hz, parseOptRevoked_some _ hrev]
  have hnup : parseExplicitTime nOpt = some sr.NextUpdate := by
    rw [hno]
    by_cases hz : sr.NextUpdate = 0
    · rw [if_pos hz, parseExplicitTime_none, hz]
    · rw [if_neg hz, parseExplicitTime_some _ hnu]
  have hextp : parseOptExtList eOpt = some sr.SingleExtensions := by
    rw [heo]
    by_cases hz : sr.SingleExtensions = []
    · rw [if_pos hz, parseOptExtList_none, hz]
    · rw [if_neg hz, parseOptExtList_some _ hexts]
  have hgs : gOpt.isSome = sr.Good := by
    rw [hgo]
    cases hgg : sr.Good <;> simp
  have hus : uOpt.isSome = sr.Unknown := by
    rw [huo]
    cases hgg : sr.Unknown <;> simp
  simp only [parseSingleResponseContent, encodeTime, hcert, h1, h2, hrevp, h3, h4,
    parseTimeContent_encodeTimeContent sr.ThisUpdate htu, h5, hnup, h6, hextp,
    hgs, hus]
  rw [if_pos trivial]

theorem parseSingleResponse_encode (sr : singleResponse)
    (h : wfSingleResponse sr = true) (s : Bytes) :
    parseSingleResponse (encodeSingleResponse sr ++ s) = some (sr, s) :=
  parseStruct_encode 48 parseSingleResponseContent sr _
    (parseSingleResponseContent_encode sr h) s

theorem parseManySingleResponses (l : List singleResponse)
    (h : l.all wfSingleResponse = true) :
    parseMany parseSingleResponse ((l.map encodeSingleResponse).flatten).length
      ((l.map encodeSingleResponse).flatten) = some l :=
  parseMany_encodes parseSingleResponse encodeSingleResponse l
    (fun x hx s => parseSingleResponse_encode x (List.all_eq_true.mp h x hx) s)
    (fun x _ => encodeTLV_ne_nil 48 _)
    _ (Nat.le_refl _)

theorem parseResponseDataContent_encode (rd : responseData)
    (h : wfResponseData rd = true) :
    parseResponseDataContent (encodeResponseDataContent rd) = some rd := by
  unfold wfResponseData wfResponderID at h
  simp only [Bool.and_eq_true, decide_eq_true_eq] at h
  obtain ⟨⟨⟨⟨hfull, hhd⟩, hpa⟩, hresps⟩, hexts⟩ := h
  rw [encodeResponseDataContent, List.append_assoc, List.append_assoc,
    List.append_assoc]
  set vOpt := (if rd.Version = 0 then none
    else some (encodeTLV 2 (encodeIntContent rd.Version))) with hvo
  set eOpt := (if rd.ResponseExtensions = [] then none
    else some (encodeTLV 48 (encodeExtensionListInner rd.ResponseExtensions))) with heo
  have hridne : rd.ResponderID ≠ [] := isFullTLV_ne_nil hfull
  have hh1 : (rd.ResponderID ++ (encodeTime rd.ProducedAt ++
      (encodeTLV 48 ((rd.Responses.map encodeSingleResponse).flatten) ++
        encOptTLV 161 eOpt))).head? ≠ some 160 := by
    rw [List.head?_append_of_ne_nil _ hridne]
    exact hhd
  have h1 := takeTagged_encOptTLV 160 vOpt _ hh1
  have hver : parseExplicitInt vOpt = some rd.Version := by
    rw [hvo]
    by_cases hv : rd.Version = 0
    · rw [if_pos hv, parseExplicitInt_none, hv]
    · rw [if_neg hv, parseExplicitInt_some]
  have h2 := takeRawTLV_full rd.ResponderID
    (encodeTime rd.ProducedAt ++
      (encodeTLV 48 ((rd.Responses.map encodeSingleResponse).flatten) ++
        encOptTLV 161 eOpt)) hfull
  have h3 := takeReq_encodeTLV 24 (encodeTimeContent rd.ProducedAt)
    (encodeTLV 48 ((rd.Responses.map encodeSingleResponse).flatten) ++ encOptTLV 161 eOpt)
  have h4 := takeReq_encodeTLV 48 ((rd.Responses.map encodeSingleResponse).flatten)
    (encOptTLV 161 eOpt)
  have h5 := takeTagged_encOptTLV_nil 161 eOpt
  have hextp : parseOptExtList eOpt = some rd.ResponseExtensions := by
    rw [heo]
    by_cases hz : rd.ResponseExtensions = []
    · rw [if_pos hz, parseOptExtList_none, hz]
    · rw [if_neg hz, parseOptExtList_some _ hexts]
  simp only [encodeTime] at h1 h2
  simp only [parseResponseDataContent, encodeTime, h1, hver, h2, h3,
    parseTimeContent_encodeTimeContent rd.ProducedAt hpa, h4,
    parseManySingleResponses rd.Responses hresps, h5, hextp]
  rw [if_pos trivial]

theorem parseOptBasicCerts_none : parseOptBasicCerts none = some [] := rfl

theorem parseOptBasicCerts_some (l : List Bytes) (h : l.all isFullTLV = true) :
    parseOptBasicCerts (some (encodeTLV 48 l.flatten)) = some l := by
  simp only [parseOptBasicCerts, takeReq_encodeTLV_nil]
  rw [if_pos trivial]
  have hm := parseMany_encodes takeRawTLV id l
    (fun x hx s2 => by
      simp only [id_eq]
      exact takeRawTLV_full x s2 (List.all_eq_true.mp h x hx))
    (fun x hx => by
      simp only [id_eq]
      exact isFullTLV_ne_nil (List.all_eq_true.mp h x hx))
    ((l.map id).flatten.length) (Nat.le_refl _)
  rw [List.map_id] at hm
  exact hm

theorem parseBasicResponseContent_encode (b : BasicResponse)
    (h : wfBasicResponse b = true) :
    parseBasicResponseContent (encodeBasicResponseContent b) = some b := by
  unfold wfBasicResponse at h
  simp only [Bool.and_eq_true] at h
  obtain ⟨⟨⟨hrd, halg⟩, hbits⟩, hcerts⟩ := h
  have h1 := fun s => parseStruct_encode 48 parseResponseDataContent b.TBSResponseData
    (encodeResponseDataContent b.TBSResponseData)
    (parseResponseDataContent_encode b.TBSResponseData hrd) s
  have h2 := parseAlgId_encode b.SignatureAlgorithm halg
  have h3 := parseBitStringTLV_encode b.Signature hbits
  have hopt : parseOptBasicCerts (if b.Certs = [] then none
      else some (encodeTLV 48 b.Certs.flatten)) = some b.Certs := by
    by_cases hz : b.Certs = []
    · rw [if_pos hz, parseOptBasicCerts_none, hz]
    · rw [if_neg hz, parseOptBasicCerts_some _ hcerts]
  simp only [encodeBasicResponseContent, parseBasicResponseContent, List.append_assoc,
    h1, h2, h3, takeTagged_encOptTLV_nil, hopt]
  rw [if_pos trivial]

theorem unmarshalBasic_encodeBasic (b : BasicResponse) (h : wfBasicResponse b = true) :
    UnmarshalBasicResponse (encodeBasicResponse b) = .ok b := by
  unfold UnmarshalBasicResponse encodeBasicResponse
  have hp := parseStruct_encode_nil 48 parseBasicResponseContent b _
    (parseBasicResponseContent_encode b h)
  simp only [parseBasicResponse, hp]
  rw [if_pos trivial]

/-! ## Append monotonicity of the top-level parsers -/

theorem takeReq_append {t : Nat} {bs c r : Bytes} (s : Bytes)
    (h : takeReq t bs = some (c, r)) : takeReq t (bs ++ s) = some (c, r ++ s) := by
  unfold takeReq at h ⊢
  match hp : parseTLV bs with
  | none => rw [hp] at h; simp at h
  | some (t2, c2, r2) =>
    rw [hp] at h
    rw [parseTLV_append s hp]
    simp only at h ⊢
    by_cases ht : t2 = t
    · rw [if_pos ht] at h ⊢
      have h2 : c2 = c ∧ r2 = r := by simpa using h
      rw [h2.1, h2.2]
    · rw [if_neg ht] at h; exact absurd h (by simp)

theorem parseStruct_append {α : Type} (tag : Nat) (pc : Bytes → Option α) {bs : Bytes}
    {x : α} {r : Bytes} (s : Bytes) (h : parseStruct tag pc bs = some (x, r)) :
    parseStruct tag pc (bs ++ s) = some (x, r ++ s) := by
  unfold parseStruct at h ⊢
  match hq : takeReq tag bs with
  | none => rw [hq] at h; simp at h
  | some (c, r2) =>
    rw [hq] at h
    rw [takeReq_append s hq]
    simp only at h ⊢
    match hpc : pc c with
    | none => rw [hpc] at h; simp at h
    | some y =>
      rw [hpc] at h
      simp only at h ⊢
      have h2 : y = x ∧ r2 = r := by simpa using h
      rw [h2.1, h2.2]

theorem unmarshalRequest_ok_parse {bs : Bytes} {r : OcspRequest}
    (h : UnmarshalRequest bs = .ok r) : parseOcspRequest bs = some (r, []) := by
  unfold UnmarshalRequest at h
  match hp : parseOcspRequest bs with
  | none => rw [hp] at h; exact absurd h (by simp)
  | some (r2, rest) =>
    rw [hp] at h
    simp only at h
    by_cases hr : rest = []
    · rw [if_pos hr] at h
      injection h with h2
      rw [hr, h2]
    · rw [if_neg hr] at h; exact absurd h (by simp)

theorem unmarshalResponse_ok_parse {bs : Bytes} {r : OcspResponse}
    (h : UnmarshalResponse bs = .ok r) : parseOcspResponse bs = some (r, []) := by
  unfold UnmarshalResponse at h
  match hp : parseOcspResponse bs with
  | none => rw [hp] at h; exact absurd h (by simp)
  | some (r2, rest) =>
    rw [hp] at h
    simp only at h
    by_cases hr : rest = []
    · rw [if_pos hr] at h
      injection h with h2
      rw [hr, h2]
    · rw [if_neg hr] at h; exact absurd h (by simp)

theorem unmarshalBasic_ok_parse {bs : Bytes} {b : BasicResponse}
    (h : UnmarshalBasicResponse bs = .ok b) : parseBasicResponse bs = some (b, []) := by
  unfold UnmarshalBasicResponse at h
  match hp : parseBasicResponse bs with
  | none => rw [hp] at h; exact absurd h (by simp)
  | some (b2, rest) =>
    rw [hp] at h
    simp only at h
    by_cases hr : rest = []
    · rw [if_pos hr] at h
      injection h with h2
      rw [hr, h2]
    · rw [if_neg hr] at h; exact absurd h (by simp)

/-! ## Sample values used by the witnesses -/

def sampleCertID : certID := ⟨⟨[1, 2], []⟩, [7, 8], [9], 300⟩

def sampleRequest : OcspRequest :=
  ⟨⟨0, [], [⟨sampleCertID, [⟨[1, 3, 6, 1, 5, 5, 7, 48, 1, 2], false, [1, 2, 3]⟩]⟩],
    [⟨[2, 5, 4], true, []⟩]⟩, zeroSignature⟩

def sampleResponse : OcspResponse := ⟨1, zeroResponseBytes⟩

def sampleSingle : singleResponse :=
  ⟨sampleCertID, true, zeroRevokedInfo, false, 20240101000000, 0, []⟩

def sampleSingleRevoked : singleResponse :=
  ⟨sampleCertID, false, ⟨20230101000000, 1⟩, true, 20240101000000, 20250101000000,
   [⟨[1, 2], false, [9]⟩]⟩

def sampleBasic : BasicResponse :=
  ⟨⟨0, [161, 1, 55], 20240101000000, [sampleSingle, sampleSingleRevoked], []⟩,
   ⟨[1, 2, 840, 113549], []⟩, ⟨[1, 2], 15⟩, [[48, 0]]⟩

/-- A basic response whose single entry starts without extensions, used to
exhibit the behaviour of SetNonce on a second write. -/
def bugResponse : BasicResponse :=
  ⟨⟨0, [161, 0], 0, [⟨sampleCertID, false, zeroRevokedInfo, false, 0, 0, []⟩], []⟩,
   ⟨[1, 2], []⟩, zeroBitString, []⟩

/-! ## Claims -/

/-- C1: in the source, the second SetNonce call on the same index does not
replace the stored nonce value: the range loop writes the new value only to
its loop copy of the matching extension. Setting the nonce to `[1]` and
then to `[2]` leaves the stored value `[1]` (the extension-list length does
stay 1, so nothing is duplicated), while the claim requires GetNonce to
return `[2]`. -/
theorem setNonce_second_write_lost :
    (((bugResponse.SetNonce 0 [1]).bind (fun r => r.SetNonce 0 [2])).bind
      (fun r => r.GetNonce 0)) = some (some [1]) ∧
    (((bugResponse.SetNonce 0 [1]).bind (fun r => r.SetNonce 0 [2])).map
      (fun r => r.TBSResponseData.Responses.map
        (fun e => e.SingleExtensions.length))) = some [1] := by
  constructor <;> rfl

/-- C2: the status normalization of the encode path follows the source's
priority order: good-and-unknown resolves to good with unknown dropped and
the identifying fields preserved; else non-empty revoked-info with unknown
keeps the revoked-info and drops unknown; an entry with neither good nor
non-empty revoked-info becomes unknown (good false, revoked-info empty)
regardless of the unknown marker; any other entry is left unchanged. -/
theorem normalization_cases (sr : singleResponse) :
    (sr.Good = true → sr.Unknown = true →
      (normalizeSingle sr).Good = true ∧ (normalizeSingle sr).Unknown = false ∧
      (normalizeSingle sr).CertID = sr.CertID ∧
      (normalizeSingle sr).ThisUpdate = sr.ThisUpdate ∧
      (normalizeSingle sr).NextUpdate = sr.NextUpdate ∧
      (normalizeSingle sr).SingleExtensions = sr.SingleExtensions) ∧
    (¬(sr.Good = true ∧ sr.Unknown = true) → sr.Revoked.IsEmpty = false →
      sr.Unknown = true →
      (normalizeSingle sr).Revoked = sr.Revoked ∧
      (normalizeSingle sr).Unknown = false) ∧
    (sr.Good = false → sr.Revoked.IsEmpty = true →
      (normalizeSingle sr).Unknown = true ∧ (normalizeSingle sr).Good = false ∧
      (normalizeSingle sr).Revoked = zeroRevokedInfo) ∧
    (¬(sr.Good = true ∧ sr.Unknown = true) →
      ¬(sr.Revoked.IsEmpty = false ∧ sr.Unknown = true) →
      ¬(sr.Good = false ∧ sr.Revoked.IsEmpty = true) →
      normalizeSingle sr = sr) := by
  cases hg : sr.Good <;> cases hu : sr.Unknown <;> cases hr : sr.Revoked.IsEmpty <;>
    simp [normalizeSingle, hg, hu, hr]

/-- Witness for C2 at a concrete entry carrying both the good and unknown
markers. -/
theorem normalization_cases_witness :
    (normalizeSingle ⟨sampleCertID, true, zeroRevokedInfo, true, 1, 2, []⟩).Good = true ∧
    (normalizeSingle ⟨sampleCertID, true, zeroRevokedInfo, true, 1, 2, []⟩).Unknown
      = false := by
  have h := (normalization_cases ⟨sampleCertID, true, zeroRevokedInfo, true, 1, 2, []⟩).1
    (by decide) (by decide)
  exact ⟨h.1, h.2.1⟩

/-- C3: the status normalization is idempotent, per entry and hence on a
whole response list. -/
theorem normalization_idempotent :
    (∀ sr : singleResponse, normalizeSingle (normalizeSingle sr) = normalizeSingle sr) ∧
    (∀ l : List singleResponse,
      (l.map normalizeSingle).map normalizeSingle = l.map normalizeSingle) := by
  have hz : RevokedInfo.IsEmpty zeroRevokedInfo = true := rfl
  have h1 : ∀ sr : singleResponse,
      normalizeSingle (normalizeSingle sr) = normalizeSingle sr := by
    intro sr
    cases hg : sr.Good <;> cases hu : sr.Unknown <;> cases hr : sr.Revoked.IsEmpty <;>
      simp [normalizeSingle, hz, hg, hu, hr]
  refine ⟨h1, fun l => ?_⟩
  rw [List.map_map]
  exact List.map_congr_left (fun x _ => h1 x)

/-- C7: ClearStatus on a valid index resets exactly the three status slots
of the indexed entry, leaving its other fields, the other entries and the
rest of the response untouched, and the subsequent normalization of the
cleared entry is marked unknown. -/
theorem clearStatus_frame (b : BasicResponse) (i : Int) (hi : 0 ≤ i)
    (hl : i.toNat < b.TBSResponseData.Responses.length) :
    b.ClearStatus i = some { b with
      TBSResponseData := { b.TBSResponseData with
        Responses := b.TBSResponseData.Responses.set i.toNat
          { b.TBSResponseData.Responses.get ⟨i.toNat, hl⟩ with
            Good := false, Unknown := false, Revoked := zeroRevokedInfo } } } ∧
    (normalizeSingle { b.TBSResponseData.Responses.get ⟨i.toNat, hl⟩ with
        Good := false, Unknown := false, Revoked := zeroRevokedInfo }).Unknown
      = true := by
  constructor
  · unfold BasicResponse.ClearStatus
    rw [dif_pos ⟨hi, hl⟩]
  · simp [normalizeSingle, RevokedInfo.IsEmpty, zeroRevokedInfo]

/-- Witness for C7 at index 0 of the sample basic response. -/
theorem clearStatus_frame_witness :
    sampleBasic.ClearStatus 0 = some { sampleBasic with
      TBSResponseData := { sampleBasic.TBSResponseData with
        Responses := sampleBasic.TBSResponseData.Responses.set 0
          { sampleBasic.TBSResponseData.Responses.get ⟨0, by decide⟩ with
            Good := false, Unknown := false, Revoked := zeroRevokedInfo } } } :=
  (clearStatus_frame sampleBasic 0 (by decide) (by decide)).1

/-- C9: the three index-based accessors succeed exactly on indexes that are
valid positions of the response list — they fail on a negative or too-large
index and perform no other validation. -/
theorem accessor_index_contract (b : BasicResponse) (i : Int) (v : Bytes) :
    ((b.SetNonce i v).isSome ↔
      0 ≤ i ∧ i.toNat < b.TBSResponseData.Responses.length) ∧
    ((b.GetNonce i).isSome ↔
      0 ≤ i ∧ i.toNat < b.TBSResponseData.Responses.length) ∧
    ((b.ClearStatus i).isSome ↔
      0 ≤ i ∧ i.toNat < b.TBSResponseData.Responses.length) := by
  refine ⟨?_, ?_, ?_⟩
  · unfold BasicResponse.SetNonce
    by_cases h : 0 ≤ i ∧ i.toNat < b.TBSResponseData.Responses.length
    · rw [dif_pos h]
      simpa using h
    · rw [dif_neg h]
      simpa using h
  · unfold BasicResponse.GetNonce
    by_cases h : 0 ≤ i ∧ i.toNat < b.TBSResponseData.Responses.length
    · rw [dif_pos h]
      simpa using h
    · rw [dif_neg h]
      simpa using h
  · unfold BasicResponse.ClearStatus
    by_cases h : 0 ≤ i ∧ i.toNat < b.TBSResponseData.Responses.length
    · rw [dif_pos h]
      simpa using h
    · rw [dif_neg h]
      simpa using h

/-- Witness for C9: at index 0 of the sample basic response all three
accessors succeed, and at index 2 (out of range) the contract gives
failure. -/
theorem accessor_index_contract_witness :
    (sampleBasic.SetNonce 0 []).isSome = true ∧
    (sampleBasic.GetNonce 2).isSome = false := by
  constructor
  · exact (accessor_index_contract sampleBasic 0 []).1.mpr (by decide)
  · have h := (accessor_index_contract sampleBasic 2 []).2.1
    by_contra hc
    simp only [Bool.not_eq_false] at hc
    have h2 := h.mp (by simpa using hc)
    revert h2
    decide

/-- C10: an entry carrying the good marker together with non-empty
revoked-info and no unknown marker falls into no normalization branch: it
is left unchanged, and its serialization carries both the good slot and the
revoked slot. -/
theorem good_and_revoked_unchanged (sr : singleResponse) (hg : sr.Good = true)
    (hr : sr.Revoked.IsEmpty = false) (hu : sr.Unknown = false) :
    normalizeSingle sr = sr ∧ goodPart sr ≠ [] ∧ revokedPart sr ≠ [] := by
  refine ⟨?_, ?_, ?_⟩
  · simp [normalizeSingle, hg, hu, hr]
  · simp [goodPart, hg, encOptTLV, encodeTLV]
  · have hz : ¬ (sr.Revoked = zeroRevokedInfo) := by
      intro hc
      rw [hc] at hr
      simp [RevokedInfo.IsEmpty, zeroRevokedInfo] at hr
    simp [revokedPart, hz, encOptTLV, encodeTLV]

/-- Witness for C10 at a concrete entry with good set and revoked-info
non-empty. -/
theorem good_and_revoked_unchanged_witness :
    normalizeSingle ⟨sampleCertID, true, ⟨5, 0⟩, false, 1, 2, []⟩
      = ⟨sampleCertID, true, ⟨5, 0⟩, false, 1, 2, []⟩ :=
  (good_and_revoked_unchanged ⟨sampleCertID, true, ⟨5, 0⟩, false, 1, 2, []⟩
    (by decide) (by decide) (by decide)).1

/-- A request carrying a top-level nonce extension, for the C8 witness. -/
def sampleNonceRequest : OcspRequest :=
  ⟨⟨0, [], [], [⟨OidOcspNonce, false, [9]⟩]⟩, zeroSignature⟩

/-- C8: the request nonce accessor reports absence when no top-level
extension bears the nonce object identifier, and otherwise returns the
value of such an extension; it is a pure function of the request and does
not mutate it. -/
theorem request_nonce_accessor (r : OcspRequest) :
    ((∀ e ∈ r.TBSRequest.ExtensionList, e.Id ≠ OidOcspNonce) → r.Nonce = none) ∧
    (∀ e, e ∈ r.TBSRequest.ExtensionList → e.Id = OidOcspNonce →
      ∃ e2, e2 ∈ r.TBSRequest.ExtensionList ∧ e2.Id = OidOcspNonce ∧
        r.Nonce = some e2.Value) := by
  constructor
  · intro hall
    unfold OcspRequest.Nonce
    rw [List.find?_eq_none.mpr ?_]
    · rfl
    · intro e he
      simp only [beq_iff_eq]
      exact hall e he
  · intro e he hid
    unfold OcspRequest.Nonce
    have hsome : (r.TBSRequest.ExtensionList.find?
        (fun e2 => e2.Id == OidOcspNonce)).isSome := by
      rw [List.find?_isSome]
      exact ⟨e, he, by simp [hid]⟩
    obtain ⟨e2, he2⟩ := Option.isSome_iff_exists.mp hsome
    refine ⟨e2, List.mem_of_find?_eq_some he2, ?_, by rw [he2]; rfl⟩
    have hp := List.find?_some he2
    simpa using hp

/-- Witness for C8 at a request with a nonce extension. -/
theorem request_nonce_accessor_witness :
    ∃ e2, e2 ∈ sampleNonceRequest.TBSRequest.ExtensionList ∧
      e2.Id = OidOcspNonce ∧ sampleNonceRequest.Nonce = some e2.Value :=
  (request_nonce_accessor sampleNonceRequest).2 ⟨OidOcspNonce, false, [9]⟩
    (by decide) (by decide)

theorem wfRevokedInfo_zero : wfRevokedInfo zeroRevokedInfo = true := by decide

theorem wfSingleResponse_normalize (sr : singleResponse)
    (h : wfSingleResponse sr = true) :
    wfSingleResponse (normalizeSingle sr) = true := by
  unfold wfSingleResponse at h ⊢
  simp only [Bool.and_eq_true] at h ⊢
  obtain ⟨⟨⟨⟨hcid, hrev⟩, htu⟩, hnu⟩, hexts⟩ := h
  unfold normalizeSingle
  split_ifs <;>
    exact ⟨⟨⟨⟨hcid, by first | exact hrev | exact wfRevokedInfo_zero⟩, htu⟩, hnu⟩, hexts⟩

theorem wfBasicResponse_normalize (b : BasicResponse) (h : wfBasicResponse b = true) :
    wfBasicResponse { b with TBSResponseData := { b.TBSResponseData with
      Responses := b.TBSResponseData.Responses.map normalizeSingle } } = true := by
  unfold wfBasicResponse wfResponseData at h ⊢
  simp only [Bool.and_eq_true] at h ⊢
  obtain ⟨⟨⟨hrd, halg⟩, hbits⟩, hcerts⟩ := h
  obtain ⟨⟨⟨hrid, hpa⟩, hresp⟩, hext⟩ := hrd
  refine ⟨⟨⟨⟨⟨⟨hrid, hpa⟩, ?_⟩, hext⟩, halg⟩, hbits⟩, hcerts⟩
  rw [List.all_eq_true] at hresp ⊢
  intro x hx
  rw [List.mem_map] at hx
  obtain ⟨y, hy, rfl⟩ := hx
  exact wfSingleResponse_normalize y (hresp y hy)

/-- C4: decode after encode recovers the value: for well-formed requests
and response envelopes the round trip is the identity, and for a basic
response the decoded value equals the input as left by the encoder (whose
normalization mutates the input in place); when the input is already
normalized this is the input itself. Raw fields (requestor name, responder
identifier, algorithm parameters, carried certificates, extension values)
are preserved octet for octet, being modelled as their raw octets. -/
theorem codec_roundtrip :
    (∀ r : OcspRequest, wfOcspRequest r = true →
      UnmarshalRequest (MarshalRequest r) = .ok r) ∧
    (∀ r : OcspResponse, wfOcspResponse r = true →
      UnmarshalResponse (MarshalResponse r) = .ok r) ∧
    (∀ b : BasicResponse, wfBasicResponse b = true →
      UnmarshalBasicResponse (MarshalBasicResponse b).2
        = .ok (MarshalBasicResponse b).1 ∧
      (MarshalBasicResponse b).1 = { b with TBSResponseData := { b.TBSResponseData with
        Responses := b.TBSResponseData.Responses.map normalizeSingle } } ∧
      (b.TBSResponseData.Responses.map normalizeSingle = b.TBSResponseData.Responses →
        (MarshalBasicResponse b).1 = b)) := by
  refine ⟨unmarshalRequest_marshalRequest, unmarshalResponse_marshalResponse, ?_⟩
  intro b hb
  refine ⟨?_, rfl, ?_⟩
  · exact unmarshalBasic_encodeBasic _ (wfBasicResponse_normalize b hb)
  · intro hn
    show ({ b with TBSResponseData := { b.TBSResponseData with
      Responses := b.TBSResponseData.Responses.map normalizeSingle } } : BasicResponse) = b
    rw [hn]

/-- Witness for C4 at concrete sample values of the three types. -/
theorem codec_roundtrip_witness :
    UnmarshalRequest (MarshalRequest sampleRequest) = .ok sampleRequest ∧
    UnmarshalResponse (MarshalResponse sampleResponse) = .ok sampleResponse ∧
    UnmarshalBasicResponse (MarshalBasicResponse sampleBasic).2
      = .ok (MarshalBasicResponse sampleBasic).1 :=
  ⟨codec_roundtrip.1 sampleRequest (by decide),
   codec_roundtrip.2.1 sampleResponse (by decide),
   (codec_roundtrip.2.2 sampleBasic (by decide)).1⟩

/-- C5: MarshalResponseFromBasic applies the status normalization to every
entry of its input (inside MarshalBasicResponse — the outer loop of the
source writes only to loop copies), and returns the encoding of an
OcspResponse envelope with status 0 (successful), response type
1.3.6.1.5.5.7.48.1.1, and response payload the encoding of the normalized
basic response. -/
theorem marshalResponseFromBasic_spec (b : BasicResponse) :
    (MarshalResponseFromBasic b).1.TBSResponseData.Responses
      = b.TBSResponseData.Responses.map normalizeSingle ∧
    (MarshalResponseFromBasic b).2 = MarshalResponse
      { ResponseStatus := 0,
        ResponseBytes :=
          { ResponseType := [1, 3, 6, 1, 5, 5, 7, 48, 1, 1],
            Response := encodeBasicResponse ((MarshalBasicResponse b).1) } } ∧
    (MarshalBasicResponse b).1 = { b with TBSResponseData := { b.TBSResponseData with
      Responses := b.TBSResponseData.Responses.map normalizeSingle } } :=
  ⟨rfl, rfl, rfl⟩

/-- C6: appending any non-empty suffix to a byte string on which a
top-level decode succeeds makes that decoder fail with the trailing-data
error; in general, whenever unconsumed bytes remain after the top-level
value, the decoders report the trailing-data error rather than a partial
result. -/
theorem trailing_data_detection :
    (∀ bs s r, UnmarshalRequest bs = .ok r → s ≠ [] →
      UnmarshalRequest (bs ++ s) = .error .trailingData) ∧
    (∀ bs s r, UnmarshalResponse bs = .ok r → s ≠ [] →
      UnmarshalResponse (bs ++ s) = .error .trailingData) ∧
    (∀ bs s b, UnmarshalBasicResponse bs = .ok b → s ≠ [] →
      UnmarshalBasicResponse (bs ++ s) = .error .trailingData) ∧
    (∀ bs r rest, parseOcspRequest bs = some (r, rest) → rest ≠ [] →
      UnmarshalRequest bs = .error .trailingData) ∧
    (∀ bs r rest, parseOcspResponse bs = some (r, rest) → rest ≠ [] →
      UnmarshalResponse bs = .error .trailingData) ∧
    (∀ bs b rest, parseBasicResponse bs = some (b, rest) → rest ≠ [] →
      UnmarshalBasicResponse bs = .error .trailingData) := by
  refine ⟨?_, ?_, ?_, ?_, ?_, ?_⟩
  · intro bs s r h hs
    have hp := unmarshalRequest_ok_parse h
    unfold parseOcspRequest at hp
    have hap := parseStruct_append 48 parseOcspRequestContent s hp
    rw [List.nil_append] at hap
    unfold UnmarshalRequest parseOcspRequest
    simp only [hap]
    rw [if_neg hs]
  · intro bs s r h hs
    have hp := unmarshalResponse_ok_parse h
    unfold parseOcspResponse at hp
    have hap := parseStruct_append 48 parseOcspResponseContent s hp
    rw [List.nil_append] at hap
    unfold UnmarshalResponse parseOcspResponse
    simp only [hap]
    rw [if_neg hs]
  · intro bs s b h hs
    have hp := unmarshalBasic_ok_parse h
    unfold parseBasicResponse at hp
    have hap := parseStruct_append 48 parseBasicResponseContent s hp
    rw [List.nil_append] at hap
    unfold UnmarshalBasicResponse parseBasicResponse
    simp only [hap]
    rw [if_neg hs]
  · intro bs r rest hp hrest
    unfold UnmarshalRequest
    simp only [hp]
    rw [if_neg hrest]
  · intro bs r rest hp hrest
    unfold UnmarshalResponse
    simp only [hp]
    rw [if_neg hrest]
  · intro bs b rest hp hrest
    unfold UnmarshalBasicResponse
    simp only [hp]
    rw [if_neg hrest]

/-- Witness for C6: one trailing octet after a valid request encoding. -/
theorem trailing_data_detection_witness :
    UnmarshalRequest (MarshalRequest sampleRequest ++ [0]) = .error .trailingData :=
  trailing_data_detection.1 (MarshalRequest sampleRequest) [0] sampleRequest
    (by decide) (by decide)
